import Mathlib

/-!
Verification of the GraphLM dual-index ingestion pipeline and graph retrieval
engine, by a shallow embedding of the backend source into Lean.

Modelling conventions, shared by all definitions below:
* JS strings are modelled as `List Char` (`Str`); the stuck byte-level
  recursion of Lean's `String` functions is avoided, while `Char.toLower`,
  prefix tests and lexicographic comparison stay executable.
* JS numbers that only ever hold the relevance scores 3 / 2 / 1, the per-hop
  decay 0.3 and the floor 0.1 are modelled in integer tenths (30 / 20 / 10,
  3, 1 : ℤ), an exact, order-isomorphic rescaling of the float values.
* The `hopDepth` argument of `fetchGraphFacts`, which the code validates with
  `Math.floor`, is modelled as a rational number.
* The Neo4j store visible to the retriever is a list of property nodes and a
  list of relationships; the store written by the graph builder is a record
  of entity/file/edge lists keyed exactly as the Cypher MERGE queries key
  them.  External services (LLM extraction, Qdrant, Cloudinary) are inputs:
  each call site receives the outcome the service returned.
-/

deriving instance DecidableEq for Except

namespace GraphLM

/-- JS strings, modelled as lists of characters. -/
abbrev Str := List Char

/-- JS `s.toLowerCase()` / Cypher `toLower(s)`. -/
def lowerStr (s : Str) : Str := s.map Char.toLower

/-- JS `s.toUpperCase()`. -/
def upperStr (s : Str) : Str := s.map Char.toUpper

/-- Containment scan underlying `strContains`: walks the haystack and tests
the needle as a prefix at every position. -/
def strContainsAux (needle : Str) : Str → Bool
  | [] => needle.isEmpty
  | c :: rest => List.isPrefixOf needle (c :: rest) || strContainsAux needle rest

/-- JS `hay.includes(needle)` / Cypher `hay CONTAINS needle`. -/
def strContains (hay needle : Str) : Bool := strContainsAux needle hay

/-- Cypher `s STARTS WITH p` / JS `s.startsWith(p)`. -/
def strStartsWith (s p : Str) : Bool := List.isPrefixOf p s

/-- Lexicographic string comparison, used for Cypher `ORDER BY ... ASC`. -/
def strLe : Str → Str → Bool
  | [], _ => true
  | _ :: _, [] => false
  | c :: cs, d :: ds => if c < d then true else if d < c then false else strLe cs ds

/-- JS `value || fallback` on a nullable string (null, undefined and the
empty string are falsy). -/
def jsOrStr (o : Option Str) (d : Str) : Str :=
  match o with
  | some s => if s.isEmpty then d else s
  | none => d

/-- The `\s+ → "_"` part of `rel.type.replace(/\s+/g, "_")`: every run of
whitespace collapses to a single underscore. -/
def collapseWsAux : Str → Bool → Str
  | [], _ => []
  | c :: rest, prevWs =>
    if c.isWhitespace then
      (if prevWs then collapseWsAux rest true else '_' :: collapseWsAux rest true)
    else c :: collapseWsAux rest false

/-- JS `s.toUpperCase().replace(/\s+/g, "_")`, the relationship-type
normalisation of the graph builder. -/
def relTypeKey (s : Str) : Str := collapseWsAux (upperStr s) false

/-- JS `Math.max` on the integer-tenths score scale. -/
def jsMaxInt (a b : ℤ) : ℤ := if a ≤ b then b else a

/-! ### A stable insertion sort

`Array.prototype.sort` is specified (ES2019) to be stable; the comparator
`(a, b) => b.relevance - a.relevance` orders by descending relevance.  The
sort is embedded as a stable insertion sort parameterised by a boolean
"may come first" relation `le`. -/

/-- Insert `a` into `l`, skipping exactly the elements that must stay in
front of it (`le a b = false`). -/
def insertLe (le : α → α → Bool) (a : α) : List α → List α
  | [] => [a]
  | b :: bs => if le a b then a :: b :: bs else b :: insertLe le a bs

/-- Stable insertion sort by `le`. -/
def sortByLe (le : α → α → Bool) : List α → List α
  | [] => []
  | a :: as => insertLe le a (sortByLe le as)

theorem insertLe_perm (le : α → α → Bool) (a : α) (l : List α) :
    List.Perm (insertLe le a l) (a :: l) := by
  induction l with
  | nil => simp [insertLe]
  | cons b bs ih =>
    simp only [insertLe]
    by_cases h : le a b = true
    · simp [h]
    · simp only [h, if_false]
      exact (List.Perm.cons b ih).trans (List.Perm.swap a b bs)

theorem sortByLe_perm (le : α → α → Bool) (l : List α) :
    List.Perm (sortByLe le l) l := by
  induction l with
  | nil => simp [sortByLe]
  | cons a as ih =>
    exact (insertLe_perm le a (sortByLe le as)).trans (List.Perm.cons a ih)

theorem mem_sortByLe {le : α → α → Bool} {l : List α} {x : α} :
    x ∈ sortByLe le l ↔ x ∈ l :=
  (sortByLe_perm le l).mem_iff

theorem pairwise_insertLe {le : α → α → Bool}
    (htot : ∀ a b, le a b = false → le b a = true)
    (htrans : ∀ a b c, le a b = true → le b c = true → le a c = true)
    {a : α} {l : List α} (h : List.Pairwise (fun x y => le x y = true) l) :
    List.Pairwise (fun x y => le x y = true) (insertLe le a l) := by
  induction l with
  | nil => simp [insertLe]
  | cons b bs ih =>
    rcases h with _ | ⟨hb, hbs⟩
    simp only [insertLe]
    by_cases hab : le a b = true
    · rw [if_pos hab]
      refine List.Pairwise.cons ?_ (List.Pairwise.cons hb hbs)
      intro c hc
      rcases List.mem_cons.mp hc with rfl | hc2
      · exact hab
      · exact htrans a b c hab (hb c hc2)
    · rw [if_neg hab]
      refine List.Pairwise.cons ?_ (ih hbs)
      intro c hc
      have hc1 : c ∈ a :: bs := (insertLe_perm le a bs).mem_iff.mp hc
      rcases List.mem_cons.mp hc1 with rfl | hc2
      · exact htot _ _ (Bool.eq_false_iff.mpr hab)
      · exact hb c hc2

theorem pairwise_sortByLe {le : α → α → Bool}
    (htot : ∀ a b, le a b = false → le b a = true)
    (htrans : ∀ a b c, le a b = true → le b c = true → le a c = true)
    (l : List α) :
    List.Pairwise (fun x y => le x y = true) (sortByLe le l) := by
  induction l with
  | nil => simp [sortByLe]
  | cons a as ih => exact pairwise_insertLe htot htrans ih

theorem filter_insertLe {le : α → α → Bool} {p : α → Bool} {a : α}
    (hc : ∀ b, p b = true → p a = true → le a b = true) (l : List α) :
    (insertLe le a l).filter p = if p a then a :: l.filter p else l.filter p := by
  induction l with
  | nil => by_cases h : p a = true <;> simp [insertLe, List.filter, h]
  | cons b bs ih =>
    simp only [insertLe]
    by_cases hab : le a b = true
    · rw [if_pos hab]
      by_cases ha : p a = true <;> by_cases hb : p b = true <;>
        simp [List.filter, ha, hb]
    · rw [if_neg hab]
      by_cases hb : p b = true
      · have hpa : p a = false := by
          by_contra hx
          have := hc b hb (by simpa using hx)
          exact hab this
        simp [List.filter, hb, ih, hpa]
      · by_cases ha : p a = true <;> simp [ha, ih, List.filter, hb]

theorem filter_sortByLe {le : α → α → Bool} {p : α → Bool}
    (hp : ∀ a b, p a = true → p b = true → le a b = true) (l : List α) :
    (sortByLe le l).filter p = l.filter p := by
  induction l with
  | nil => simp [sortByLe]
  | cons a as ih =>
    simp only [sortByLe]
    rw [filter_insertLe (fun b hb ha => hp a b ha hb)]
    by_cases ha : p a = true <;> simp [List.filter, ha, ih]

/-! ### The Neo4j store as the retriever sees it

`fetchGraphFacts` (src/backend/src/services/chat/rag/graph/fetchGraphFacts.js)
reads a property graph: nodes carry labels and the properties `name`, `type`,
`sourceId` (entities) or `path` (files); relationships are directed, typed
edges between node identities. -/

/-- A Neo4j node as returned by the driver: identity, labels and the
properties the retriever reads (absent properties are `none`). -/
structure GNode where
  nid : ℕ
  labels : List Str
  name : Option Str
  type : Option Str
  sourceId : Option Str
  path : Option Str
deriving DecidableEq

/-- A Neo4j relationship: identity, start/end node identities and type. -/
structure GRel where
  rid : ℕ
  startId : ℕ
  endId : ℕ
  relType : Str
deriving DecidableEq

/-- The graph store visible to the read-only retrieval query. -/
structure Neo4jDB where
  nodes : List GNode
  rels : List GRel
deriving DecidableEq

/-- Cypher `n.sourceId IN $sourceIds`; a null `sourceId` fails the test (Cypher
`null IN list` is null, which `WHERE` treats as false). -/
def GNode.inScopeB (n : GNode) (scope : List Str) : Bool :=
  match n.sourceId with
  | some s => scope.contains s
  | none => false

/-- The anchor-selection `WHERE` clause: an `:Entity` node in scope whose
lowercased name or type contains the lowercased query (null name/type fails
its disjunct, as in Cypher). -/
def anchorPredB (q : Str) (scope : List Str) (n : GNode) : Bool :=
  n.labels.contains "Entity".data && n.inScopeB scope &&
    ((match n.name with
      | some nm => strContains (lowerStr nm) (lowerStr q)
      | none => false) ||
     (match n.type with
      | some ty => strContains (lowerStr ty) (lowerStr q)
      | none => false))

/-- The `CASE` match score of an anchor, in integer tenths: 30 for an exact
case-insensitive name match, 20 for a name-prefix match, 10 otherwise
(substring or type match; a null name falls through to the `ELSE`). -/
def matchScoreT (q : Str) (n : GNode) : ℤ :=
  match n.name with
  | some nm =>
    if lowerStr nm = lowerStr q then 30
    else if strStartsWith (lowerStr nm) (lowerStr q) then 20
    else 10
  | none => 10

/-- The `ORDER BY CASE ... END` sort rank of an anchor (0 exact, 1 name
starts with query, 2 otherwise). -/
def anchorRank (q : Str) (n : GNode) : ℕ :=
  match n.name with
  | some nm =>
    if lowerStr nm = lowerStr q then 0
    else if strStartsWith (lowerStr nm) (lowerStr q) then 1
    else 2
  | none => 2

/-- Ordering on anchors: by rank, then `anchor.name ASC` (a null name sorts
last, as Neo4j sorts nulls last in ascending order). -/
def anchorLe (q : Str) (a b : GNode) : Bool :=
  if anchorRank q a < anchorRank q b then true
  else if anchorRank q b < anchorRank q a then false
  else
    match a.name, b.name with
    | some x, some y => strLe x y
    | some _, none => true
    | none, some _ => false
    | none, none => true

/-- Anchor selection: filter, order, `LIMIT $anchorLimit`. -/
def anchorsOf (g : Neo4jDB) (q : Str) (scope : List Str) (limit : ℕ) : List GNode :=
  (sortByLe (anchorLe q) (g.nodes.filter (anchorPredB q scope))).take limit

/-- One hop of the variable-length expansion: the relationship taken and the
node it reaches. -/
structure Step where
  rel : GRel
  node : GNode
deriving DecidableEq

/-- The far endpoint of an undirected traversal of `r` from node `cur`. -/
def otherEnd (r : GRel) (cur : ℕ) : ℕ :=
  if r.startId = cur then r.endId else r.startId

/-- The admissible next steps from node id `cur`: an incident relationship
not already on the path (Cypher paths are relationship-distinct), whose far
endpoint exists and passes the `ALL(n IN nodes(path) WHERE n.sourceId IN
$sourceIds)` scope check. -/
def stepCandidates (g : Neo4jDB) (scope : List Str) (cur : ℕ) (used : List ℕ) :
    List Step :=
  (g.rels.filter (fun r => (r.startId == cur || r.endId == cur) && !used.contains r.rid)).filterMap
    (fun r =>
      match g.nodes.find? (fun n => n.nid == otherEnd r cur) with
      | some n => if n.inScopeB scope then some ⟨r, n⟩ else none
      | none => none)

/-- All relationship-distinct walks of length 1..fuel from `cur` whose every
visited node is in scope (the candidates for `(anchor)-[rels*1..d]-(...)`). -/
def walksFrom (g : Neo4jDB) (scope : List Str) : ℕ → ℕ → List ℕ → List (List Step)
  | 0, _, _ => []
  | d + 1, cur, used =>
    (stepCandidates g scope cur used).flatMap (fun s =>
      [s] :: (walksFrom g scope d s.node.nid (s.rel.rid :: used)).map (fun w => s :: w))

/-- The pattern requires the final node to be an `:Entity`. -/
def walkEndsAtEntity (w : List Step) : Bool :=
  match w.getLast? with
  | some s => s.node.labels.contains "Entity".data
  | none => false

/-- The expansion paths of one anchor under hop depth `d`. -/
def pathsOf (g : Neo4jDB) (scope : List Str) (d : ℕ) (anchor : GNode) :
    List (List Step) :=
  (walksFrom g scope d anchor.nid []).filter walkEndsAtEntity

/-- The `nodes(path)` / `relationships(path)` pairs for one anchor; the
`OPTIONAL MATCH` yields one null row (empty lists) when no path exists. -/
def pathParts (g : Neo4jDB) (scope : List Str) (d : ℕ) (anchor : GNode) :
    List (List GNode × List GRel) :=
  let ps := pathsOf g scope d anchor
  if ps.isEmpty then [([], [])]
  else ps.map (fun w => (anchor :: w.map Step.node, w.map Step.rel))

/-- Cypher `OPTIONAL MATCH (f:File)-[:MENTIONS]->(anchor) WHERE f.sourceId IN
$sourceIds`, projected to `f.path`; one null row when no file matches. -/
def filePathsOf (g : Neo4jDB) (scope : List Str) (anchor : GNode) :
    List (Option Str) :=
  let fs := g.nodes.filter (fun f =>
    f.labels.contains "File".data && f.inScopeB scope &&
      g.rels.any (fun r =>
        r.relType == "MENTIONS".data && r.startId == f.nid && r.endId == anchor.nid))
  if fs.isEmpty then [none] else fs.map GNode.path

/-- One row of the retrieval query result, as the JS code reads it. -/
structure QueryRecord where
  anchor : GNode
  pathNodes : List GNode
  pathRels : List GRel
  filePath : Option Str
  matchScore : ℤ
deriving DecidableEq

/-- The full record set: anchors × paths × files, each row carrying the
anchor's match score. -/
def recordsOf (g : Neo4jDB) (q : Str) (scope : List Str) (limit d : ℕ) :
    List QueryRecord :=
  (anchorsOf g q scope limit).flatMap (fun a =>
    (pathParts g scope d a).flatMap (fun pp =>
      (filePathsOf g scope a).map (fun fp =>
        ⟨a, pp.1, pp.2, fp, matchScoreT q a⟩)))

/-- A fact pushed by the retriever.  The JS objects expose only the `name`
and `type` of each node and no relationship identity; the embedding keeps
the underlying nodes and the edge identity (which the JS code tracks in
`seenRelations`) so scoping and deduplication are statable. -/
inductive Fact where
  | entity (anchor : GNode) (definedIn : Str) (relevance : ℤ)
  | relation (subject : GNode) (predicate : Str) (object : GNode)
      (relevance : ℤ) (relId : ℕ)
deriving DecidableEq

/-- The relevance score (in tenths) of a fact. -/
def Fact.relevance : Fact → ℤ
  | .entity _ _ r => r
  | .relation _ _ _ r _ => r

/-- The relationship identity of a relation fact. -/
def Fact.relId? : Fact → Option ℕ
  | .entity _ _ _ => none
  | .relation _ _ _ _ i => some i

/-- One step of the first pass: keep a record only when its anchor identity
is new. -/
def collectStep (acc : List QueryRecord) (r : QueryRecord) : List QueryRecord :=
  if acc.any (fun r2 => r2.anchor.nid == r.anchor.nid) then acc else acc ++ [r]

/-- First pass: keep the first record of each anchor identity, in order of
appearance (the JS `anchors` insertion-ordered `Map`). -/
def collectAnchorRecords (recs : List QueryRecord) : List QueryRecord :=
  recs.foldl collectStep []

/-- The anchor entity facts: name/type/defining file (`filePath ||
"unknown"`) with the match score as relevance. -/
def entityFactsOf (recs : List QueryRecord) : List Fact :=
  (collectAnchorRecords recs).map (fun r =>
    .entity r.anchor (jsOrStr r.filePath "unknown".data) r.matchScore)

/-- The JS `new Map(nodes.map(n => [n.identity, n])).get(k)`: on duplicate
keys the last entry wins. -/
def jsMapGet (nodes : List GNode) (k : ℕ) : Option GNode :=
  (nodes.filter (fun n => n.nid == k)).getLast?

/-- The inner relationship loop of the second pass: for the `i`-th path
relationship (hop distance `i + 1`), skip if already seen, resolve both
endpoints, push a relation fact with relevance
`max(0.1, matchScore - hopDistance * 0.3)` (in tenths: `max 1 (ms - h*3)`)
and mark the edge seen. -/
def relLoop (ms : ℤ) (nodes : List GNode) :
    List GRel → ℕ → List Fact → List ℕ → List Fact × List ℕ
  | [], _, facts, seen => (facts, seen)
  | rel :: rest, i, facts, seen =>
    if seen.contains rel.rid then relLoop ms nodes rest (i + 1) facts seen
    else
      match jsMapGet nodes rel.startId, jsMapGet nodes rel.endId with
      | some sn, some en =>
        relLoop ms nodes rest (i + 1)
          (facts ++ [.relation sn rel.relType en
            (jsMaxInt 1 (ms - ((i : ℤ) + 1) * 3)) rel.rid])
          (seen ++ [rel.rid])
      | _, _ => relLoop ms nodes rest (i + 1) facts seen

/-- One record of the second pass: records with a null path are skipped,
the rest run the relationship loop. -/
def secondPassStep (acc : List Fact × List ℕ) (r : QueryRecord) :
    List Fact × List ℕ :=
  if r.pathNodes.isEmpty || r.pathRels.isEmpty then acc
  else relLoop r.matchScore r.pathNodes r.pathRels 0 acc.1 acc.2

/-- Second pass over all records, threading the fact list and the
`seenRelations` set. -/
def secondPass (recs : List QueryRecord) (init : List Fact) :
    List Fact × List ℕ :=
  recs.foldl secondPassStep (init, [])

/-- The fact list in insertion order: entity facts first, then relation
facts. -/
def rawFacts (g : Neo4jDB) (q : Str) (scope : List Str) (limit d : ℕ) :
    List Fact :=
  let recs := recordsOf g q scope limit d
  (secondPass recs (entityFactsOf recs)).1

/-- The comparator `(a, b) => b.relevance - a.relevance`: `a` may stay
before `b` exactly when the comparator is ≤ 0. -/
def factLe (a b : Fact) : Bool := decide (b.relevance ≤ a.relevance)

/-- The retrieval pipeline for an already-validated hop depth `d`. -/
def fetchGraphFactsValid (g : Neo4jDB) (q : Str) (scope : List Str)
    (limit d : ℕ) : List Fact :=
  sortByLe factLe (rawFacts g q scope limit d)

/-- JS `Math.max(1, Math.min(5, Math.floor(Number(hopDepth))))`. -/
def safeHopDepth (hd : ℚ) : ℤ := max 1 (min 5 ⌊hd⌋)

/-- The retriever `fetchGraphFacts({query, sourceIds, anchorLimit, hopDepth})`: reject a
hop depth whose clamped floor differs from the supplied value, otherwise run
the query and return the facts sorted by descending relevance.  (`NaN`
rejection needs no separate case: ℚ has no NaN.) -/
def fetchGraphFacts (g : Neo4jDB) (q : Str) (scope : List Str) (limit : ℕ)
    (hd : ℚ) : Except String (List Fact) :=
  if (safeHopDepth hd : ℚ) = hd then
    .ok (fetchGraphFactsValid g q scope limit (safeHopDepth hd).toNat)
  else
    .error "Invalid hopDepth: must be an integer between 1 and 5"

/-! ### The graph store as the builder writes it

`buildPDFGraph` / `buildGithubRepoGraph` / `deleteGraphBySourceId`
(src/backend/src/services/indexing/graphIndex.js) write through four MERGE
query shapes; the store is modelled by the node/edge lists those queries
touch, each element carrying exactly the key and payload properties of its
query. -/

/-- An `:Entity` node: `MERGE (e:Entity {name: $name, sourceId: $sourceId})
SET e.type = $type` — key `(name, sourceId)`, payload `type`. -/
structure StoreEntity where
  name : Str
  sourceId : Str
  type : Str
deriving DecidableEq

/-- A typed edge between two entities of one source:
`MATCH (a:Entity {name:$fromName, sourceId:$sourceId}) MATCH (b:Entity
{name:$toName, sourceId:$sourceId}) MERGE (a)-[r:TYPE]->(b)`. -/
structure StoreEdge where
  fromName : Str
  toName : Str
  sourceId : Str
  relType : Str
deriving DecidableEq

/-- A `:File` node: key `(path, sourceId)`, payload `language`/`fileType`. -/
structure StoreFile where
  path : Str
  sourceId : Str
  language : Str
  fileType : Str
deriving DecidableEq

/-- A `(File)-[:MENTIONS]->(Entity)` edge (both endpoints share the
source). -/
structure MentionsEdge where
  path : Str
  entityName : Str
  sourceId : Str
deriving DecidableEq

/-- A `(Source)-[:HAS_FILE]->(File)` edge. -/
structure HasFileEdge where
  sourceId : Str
  path : Str
deriving DecidableEq

/-- The builder-visible Neo4j store. -/
structure GraphStore where
  sourceNodes : List (Str × Str)
  entities : List StoreEntity
  edges : List StoreEdge
  files : List StoreFile
  hasFileEdges : List HasFileEdge
  mentionsEdges : List MentionsEdge
deriving DecidableEq

/-- The empty store. -/
def GraphStore.empty : GraphStore := ⟨[], [], [], [], [], []⟩

/-- Cypher `MERGE (s:Source {id: $sourceId}) SET s.sourceType = ...`. -/
def mergeSourceNode (g : GraphStore) (sid sourceType : Str) : GraphStore :=
  if g.sourceNodes.any (fun p => p.1 == sid) then
    { g with sourceNodes := g.sourceNodes.map (fun p =>
        if p.1 == sid then (p.1, sourceType) else p) }
  else
    { g with sourceNodes := g.sourceNodes ++ [(sid, sourceType)] }

/-- Cypher `MERGE (e:Entity {name, sourceId}) SET e.type = $type`: match on the
key, overwrite `type` on every match, create when absent. -/
def mergeEntity (g : GraphStore) (name sid ty : Str) : GraphStore :=
  if g.entities.any (fun e => e.name == name && e.sourceId == sid) then
    { g with entities := g.entities.map (fun e =>
        if e.name == name && e.sourceId == sid then { e with type := ty } else e) }
  else
    { g with entities := g.entities ++ [⟨name, sid, ty⟩] }

/-- The relationship MERGE: both endpoint entities must MATCH (else the
query touches nothing); the edge is created only when no edge with the same
endpoints and type exists. -/
def mergeEdge (g : GraphStore) (fromName toName sid ty : Str) : GraphStore :=
  if g.entities.any (fun e => e.name == fromName && e.sourceId == sid) &&
     g.entities.any (fun e => e.name == toName && e.sourceId == sid) then
    if g.edges.any (fun e =>
        e.fromName == fromName && e.toName == toName &&
        e.sourceId == sid && e.relType == ty) then g
    else { g with edges := g.edges ++ [⟨fromName, toName, sid, ty⟩] }
  else g

/-- Cypher `MERGE (f:File {path, sourceId}) SET f.language = ..., f.fileType = ...`. -/
def mergeFile (g : GraphStore) (path sid language fileType : Str) : GraphStore :=
  if g.files.any (fun f => f.path == path && f.sourceId == sid) then
    { g with files := g.files.map (fun f =>
        if f.path == path && f.sourceId == sid then
          { f with language := language, fileType := fileType } else f) }
  else
    { g with files := g.files ++ [⟨path, sid, language, fileType⟩] }

/-- Cypher `MATCH (s:Source {id}) MATCH (f:File {path, sourceId}) MERGE
(s)-[:HAS_FILE]->(f)`. -/
def mergeHasFile (g : GraphStore) (sid path : Str) : GraphStore :=
  if g.sourceNodes.any (fun p => p.1 == sid) &&
     g.files.any (fun f => f.path == path && f.sourceId == sid) then
    if g.hasFileEdges.any (fun e => e.sourceId == sid && e.path == path) then g
    else { g with hasFileEdges := g.hasFileEdges ++ [⟨sid, path⟩] }
  else g

/-- Cypher `MATCH (f:File {path, sourceId}) MATCH (e:Entity {name, sourceId})
MERGE (f)-[:MENTIONS]->(e)`. -/
def mergeMentions (g : GraphStore) (path entityName sid : Str) : GraphStore :=
  if g.files.any (fun f => f.path == path && f.sourceId == sid) &&
     g.entities.any (fun e => e.name == entityName && e.sourceId == sid) then
    if g.mentionsEdges.any (fun m =>
        m.path == path && m.entityName == entityName && m.sourceId == sid) then g
    else { g with mentionsEdges := g.mentionsEdges ++ [⟨path, entityName, sid⟩] }
  else g

/-- Cypher `MATCH (n:Entity {sourceId: $sourceId}) DETACH DELETE n`: the query
deletes only `:Entity` nodes of the source, detaching the relationships
that touch them (the entity↔entity edges and the MENTIONS edges of that
source); `:File` and `:Source` nodes and HAS_FILE edges are untouched. -/
def deleteGraphBySourceId (g : GraphStore) (sid : Str) : GraphStore :=
  { g with
    entities := g.entities.filter (fun e => !(e.sourceId == sid)),
    edges := g.edges.filter (fun e => !(e.sourceId == sid)),
    mentionsEdges := g.mentionsEdges.filter (fun m => !(m.sourceId == sid)) }

/-! ### The LLM extraction results

`LLMGraphTransformer.convertToGraphDocuments` is an external service; each
chunk's call either throws or returns graph documents whose nodes and
relationships the builder normalises.  A missing `id` / `type` /
`source?.id` / `target?.id` is modelled as the empty string (JS falsy). -/

/-- An extracted node: `node.id` becomes both the merge key and `name`;
`node.type` the category. -/
structure ExtNode where
  id : Str
  type : Str
deriving DecidableEq

/-- An extracted relationship with endpoint identifiers. -/
structure ExtRel where
  type : Str
  sourceName : Str
  targetName : Str
deriving DecidableEq

/-- One graph document returned by the transformer. -/
structure GraphDocX where
  nodes : List ExtNode
  relationships : List ExtRel
deriving DecidableEq

/-- JS `graphDoc.nodes.filter(node => node.id && node.type)`. -/
def normalizedNodes (gd : GraphDocX) : List ExtNode :=
  gd.nodes.filter (fun n => !n.id.isEmpty && !n.type.isEmpty)

/-- JS `graphDoc.relationships.filter(rel => rel.type && rel.source?.id &&
rel.target?.id)`. -/
def normalizedRelationships (gd : GraphDocX) : List ExtRel :=
  gd.relationships.filter (fun r =>
    !r.type.isEmpty && !r.sourceName.isEmpty && !r.targetName.isEmpty)

/-! ### buildPDFGraph

Chunk tasks run under a `p-limit` concurrency window; each task's whole body
is wrapped in `try { ... } catch { log; continue }`, so a chunk whose
extraction throws contributes nothing and aborts nothing.  Counter updates
commute, so the concurrent execution is embedded as a sequential fold over
the chunks; a chunk is the outcome of its extraction call. -/

/-- A PDF chunk's processing outcome: the graph documents its extraction
returned, or the error it threw. -/
abbrev PDFChunk := Except Unit (List GraphDocX)

/-- Persist one graph document of a PDF chunk: when the normalised node
list is nonempty, merge every node (counting each occurrence) and then
every relationship (counting each occurrence, whether or not its endpoint
MATCH finds both entities). -/
def processGraphDocPDF (sid : Str) (acc : GraphStore × ℕ × ℕ) (gd : GraphDocX) :
    GraphStore × ℕ × ℕ :=
  let nn := normalizedNodes gd
  let nr := normalizedRelationships gd
  if nn.isEmpty then acc
  else
    let g1 := nn.foldl (fun g n => mergeEntity g n.id sid n.type) acc.1
    let g2 := nr.foldl (fun g r =>
      mergeEdge g r.sourceName r.targetName sid (relTypeKey r.type)) g1
    (g2, acc.2.1 + nn.length, acc.2.2 + nr.length)

/-- One PDF chunk task: an extraction error is caught, logged and skipped. -/
def processChunkPDF (sid : Str) (acc : GraphStore × ℕ × ℕ) (c : PDFChunk) :
    GraphStore × ℕ × ℕ :=
  match c with
  | .error _ => acc
  | .ok gds => gds.foldl (processGraphDocPDF sid) acc

/-- The builder `buildPDFGraph({sourceId, docs})` over initial store `g0`: validate,
merge the `Source` node once, process every chunk, return the final store
with the occurrence counters `nodesAdded` / `relationshipsAdded`. -/
def buildPDFGraph (sid : Str) (docs : List PDFChunk) (g0 : GraphStore) :
    Except String (GraphStore × ℕ × ℕ) :=
  if sid.isEmpty then .error "sourceId is required for Neo4j indexing"
  else if docs.isEmpty then
    .error "Documents array is required and cannot be empty"
  else
    .ok (docs.foldl (processChunkPDF sid) (mergeSourceNode g0 sid "pdf".data, 0, 0))

/-- The counter contribution of one extracted graph document: its
normalised node and relationship occurrence counts, or nothing when the
node list is empty (the builder then persists and counts nothing). -/
def docCounts (gd : GraphDocX) : ℕ × ℕ :=
  if (normalizedNodes gd).isEmpty then (0, 0)
  else ((normalizedNodes gd).length, (normalizedRelationships gd).length)

/-- The `(nodesAdded, relationshipsAdded)` contribution of one PDF chunk: a
failed chunk contributes nothing, a successful one the occurrence counts of
its graph documents. -/
def pdfChunkCounts (c : PDFChunk) : ℕ × ℕ :=
  match c with
  | .error _ => (0, 0)
  | .ok gds =>
    ((gds.map (fun gd => (docCounts gd).1)).sum,
     (gds.map (fun gd => (docCounts gd).2)).sum)

/-! ### buildGithubRepoGraph -/

/-- A GitHub repo chunk: the file metadata the splitter attached (empty
string for a missing value, JS falsy) and the outcome of its extraction
call. -/
structure RepoDoc where
  path : Str
  language : Str
  fileType : Str
  extract : Except Unit (List GraphDocX)
deriving DecidableEq

/-- Persist one graph document of a repo chunk: entities each followed by a
`MENTIONS` edge from the owning file, then the typed relationships. -/
def processGraphDocRepo (sid filePath : Str) (acc : GraphStore × ℕ × ℕ)
    (gd : GraphDocX) : GraphStore × ℕ × ℕ :=
  let nn := normalizedNodes gd
  let nr := normalizedRelationships gd
  if nn.isEmpty then acc
  else
    let g1 := nn.foldl (fun g n =>
      mergeMentions (mergeEntity g n.id sid n.type) filePath n.id sid) acc.1
    let g2 := nr.foldl (fun g r =>
      mergeEdge g r.sourceName r.targetName sid (relTypeKey r.type)) g1
    (g2, acc.2.1 + nn.length, acc.2.2 + nr.length)

/-- One repo chunk task: merge the `File` node and its `HAS_FILE` edge the
first time the path is seen, then extract; an extraction error is caught
after the file merge and skips only this chunk's entities/relationships. -/
def processChunkRepo (sid : Str) (acc : GraphStore × List Str × ℕ × ℕ)
    (doc : RepoDoc) : GraphStore × List Str × ℕ × ℕ :=
  let filePath := jsOrStr (some doc.path) "unknown".data
  let language := jsOrStr (some doc.language) "unknown".data
  let fileType := jsOrStr (some doc.fileType) "unknown".data
  let seen := acc.2.1.contains filePath
  let g0 := if seen then acc.1
    else mergeHasFile (mergeFile acc.1 filePath sid language fileType) sid filePath
  let files0 := if seen then acc.2.1 else acc.2.1 ++ [filePath]
  match doc.extract with
  | .error _ => (g0, files0, acc.2.2)
  | .ok gds =>
    let r := gds.foldl (processGraphDocRepo sid filePath) (g0, acc.2.2)
    (r.1, files0, r.2)

/-- The builder `buildGithubRepoGraph({sourceId, docs})` over initial store `g0`:
validate, merge the `Source` node, process every chunk, return the final
store, the distinct file count and the occurrence counters. -/
def buildGithubRepoGraph (sid : Str) (docs : List RepoDoc) (g0 : GraphStore) :
    Except String (GraphStore × List Str × ℕ × ℕ) :=
  if sid.isEmpty then .error "sourceId is required for Neo4j indexing"
  else if docs.isEmpty then
    .error "Documents array is required and cannot be empty"
  else
    .ok (docs.foldl (processChunkRepo sid)
      (mergeSourceNode g0 sid "github_repo".data, [], 0, 0))

/-- The `(nodesAdded, relationshipsAdded)` contribution of one repo chunk. -/
def repoChunkCounts (doc : RepoDoc) : ℕ × ℕ :=
  match doc.extract with
  | .error _ => (0, 0)
  | .ok gds =>
    ((gds.map (fun gd => (docCounts gd).1)).sum,
     (gds.map (fun gd => (docCounts gd).2)).sum)

/-! ### Application state and the source controllers

The Mongo collections (`Source`, `VectorIndexMetadata`, `GraphMetadata`),
the Qdrant collections and the builder-visible graph store form the
application state.  `sourceId` is a unique key of both metadata collections
(one-to-one with `Source`; `graphMetadata.models.js` declares `unique:
true`), and `_id` is unique in `Source`, so Mongurse `deleteOne` on those
keys is a filter. -/

/-- A `Source` document (the fields the controllers read and write). -/
structure SourceRow where
  id : Str
  ownerId : Str
  status : Str
deriving DecidableEq

/-- A `VectorIndexMetadata` document. -/
structure VectorMetaRow where
  sourceId : Str
  collectionName : Str
deriving DecidableEq

/-- A `GraphMetadata` document. -/
structure GraphMetaRow where
  sourceId : Str
  entityCount : ℕ
  relationCount : ℕ
deriving DecidableEq

/-- The application-visible persistent state. -/
structure AppDB where
  sources : List SourceRow
  vectorMeta : List VectorMetaRow
  graphMeta : List GraphMetaRow
  qdrantCollections : List Str
  graph : GraphStore
deriving DecidableEq

/-- Mongoose `Source.findByIdAndUpdate(id, { status })`. -/
def setSourceStatus (rows : List SourceRow) (id status : Str) : List SourceRow :=
  rows.map (fun s => if s.id == id then { s with status := status } else s)

/-- The outcome of an ingestion request: the state after the synchronous
part, the HTTP response (success or thrown error), and the detached graph
build job if one was started (its source id and chunk list). -/
structure IngestOutcome (χ : Type) where
  db : AppDB
  response : Except String Unit
  pendingGraphJob : Option (Str × List χ)
deriving DecidableEq

/-- The loader `loadAndPrepareGithubRepo` (src/backend/src/services/ingestion.js):
fail when the loader returned zero documents, fail when splitting yielded
zero chunks, otherwise return the chunks.  Loading and the content-level
splitting are external inputs here: the model receives the loader's
document list and the splitter's chunk list. -/
def loadAndPrepareGithubRepo (loadedDocs splitDocs : List RepoDoc) :
    Except String (List RepoDoc) :=
  if loadedDocs.isEmpty then
    .error "Failed to load GitHub repository or repository is empty"
  else if splitDocs.isEmpty then
    .error "Failed to split GitHub repository documents"
  else .ok splitDocs

/-- The loader `loadAndPreparePDF`: the same guard shape for the PDF loader/splitter. -/
def loadAndPreparePDF (loadedDocs splitDocs : List PDFChunk) :
    Except String (List PDFChunk) :=
  if loadedDocs.isEmpty then .error "Failed to load PDF or PDF is empty"
  else if splitDocs.isEmpty then .error "Failed to split PDF documents"
  else .ok splitDocs

/-- The controller `addGithubSource` (source.controllers.js), synchronous part.  Create
the `Source` row (`status: uploaded`), run `indexGithubSource`
(load + split + Qdrant upsert, the upsert outcome injected as `storeOk`);
on success create `VectorIndexMetadata`, set `status: indexing`, answer 202
and hand the chunks to the detached graph job; on any failure the catch
block sets `status: failed` and rethrows — the graph job is never started. -/
def addGithubSource (db : AppDB) (userId newId repoUrl : Str)
    (loadedDocs splitDocs : List RepoDoc) (storeOk : Bool) :
    IngestOutcome RepoDoc :=
  if repoUrl.isEmpty then ⟨db, .error "Repository URL is required", none⟩
  else if !strContains repoUrl "github.com".data then
    ⟨db, .error "Invalid GitHub repository URL", none⟩
  else
    let db1 := { db with sources := db.sources ++ [(⟨newId, userId, "uploaded".data⟩ : SourceRow)] }
    let collectionName := "github_".data ++ newId
    let dbFailed := { db1 with sources := setSourceStatus db1.sources newId "failed".data }
    match loadAndPrepareGithubRepo loadedDocs splitDocs with
    | .error e => ⟨dbFailed, .error e, none⟩
    | .ok chunks =>
      if storeOk then
        let db2 := { db1 with qdrantCollections := db1.qdrantCollections ++ [collectionName], vectorMeta := db1.vectorMeta ++ [(⟨newId, collectionName⟩ : VectorMetaRow)] }
        let db3 := { db2 with sources := setSourceStatus db2.sources newId "indexing".data }
        ⟨db3, .ok (), some (newId, chunks)⟩
      else
        ⟨dbFailed, .error "Failed to index documents to Qdrant", none⟩

/-- The controller `addPDFSource` (source.controllers.js), synchronous part: like the
GitHub flow, plus the Cloudinary upload between vector indexing and the
job start (its failure is caught after `VectorIndexMetadata` was written). -/
def addPDFSource (db : AppDB) (userId newId : Str) (filePresent : Bool)
    (loadedDocs splitDocs : List PDFChunk) (storeOk cloudinaryOk : Bool) :
    IngestOutcome PDFChunk :=
  if !filePresent then ⟨db, .error "PDF file is required", none⟩
  else
    let db1 := { db with sources := db.sources ++ [(⟨newId, userId, "uploaded".data⟩ : SourceRow)] }
    let collectionName := "source_".data ++ newId
    let dbFailed := { db1 with sources := setSourceStatus db1.sources newId "failed".data }
    match loadAndPreparePDF loadedDocs splitDocs with
    | .error e => ⟨dbFailed, .error e, none⟩
    | .ok chunks =>
      if storeOk then
        let db2 := { db1 with qdrantCollections := db1.qdrantCollections ++ [collectionName], vectorMeta := db1.vectorMeta ++ [(⟨newId, collectionName⟩ : VectorMetaRow)] }
        let db3 := { db2 with sources := setSourceStatus db2.sources newId "indexing".data }
        if cloudinaryOk then ⟨db3, .ok (), some (newId, chunks)⟩
        else
          let db4 := { db3 with sources := setSourceStatus db3.sources newId "failed".data }
          ⟨db4, .error "Failed to upload PDF to Cloudinary", none⟩
      else
        ⟨dbFailed, .error "Failed to index documents to Qdrant", none⟩

/-- The detached graph job of the PDF flow: build, then on success create
`GraphMetadata` from the returned counters and set `status: indexed`; on
failure set `status: failed`. -/
def runGraphJobPDF (db : AppDB) (sid : Str) (chunks : List PDFChunk) : AppDB :=
  match buildPDFGraph sid chunks db.graph with
  | .ok (g, n, r) =>
    { db with graph := g, graphMeta := db.graphMeta ++ [(⟨sid, n, r⟩ : GraphMetaRow)], sources := setSourceStatus db.sources sid "indexed".data }
  | .error _ => { db with sources := setSourceStatus db.sources sid "failed".data }

/-- The detached graph job of the GitHub flow. -/
def runGraphJobRepo (db : AppDB) (sid : Str) (docs : List RepoDoc) : AppDB :=
  match buildGithubRepoGraph sid docs db.graph with
  | .ok (g, _, n, r) =>
    { db with graph := g, graphMeta := db.graphMeta ++ [(⟨sid, n, r⟩ : GraphMetaRow)], sources := setSourceStatus db.sources sid "indexed".data }
  | .error _ => { db with sources := setSourceStatus db.sources sid "failed".data }

/-- The controller `deleteSource` (source.controllers.js): 404 when the source is absent
or not owned; otherwise read both metadata rows, delete the `Source` row
and both metadata rows synchronously, then run the external cleanups
best-effort — the Qdrant collection delete only when a `VectorIndexMetadata`
row existed, the Neo4j subgraph delete only when a `GraphMetadata` row
existed; each cleanup's failure (`qdrantOk` / `neoOk` false) is caught and
logged and never fails the call. -/
def deleteSource (db : AppDB) (id userId : Str) (qdrantOk neoOk : Bool) :
    Except String AppDB :=
  match db.sources.find? (fun s => s.id == id && s.ownerId == userId) with
  | none => .error "Source not found"
  | some _ =>
    let vm := db.vectorMeta.find? (fun v => v.sourceId == id)
    let gm := db.graphMeta.find? (fun m => m.sourceId == id)
    let db1 := { db with
      sources := db.sources.filter (fun s => !(s.id == id && s.ownerId == userId)),
      vectorMeta := db.vectorMeta.filter (fun v => !(v.sourceId == id)),
      graphMeta := db.graphMeta.filter (fun m => !(m.sourceId == id)) }
    let db2 :=
      match vm with
      | some v =>
        if qdrantOk then
          { db1 with qdrantCollections :=
              db1.qdrantCollections.filter (fun c => !(c == v.collectionName)) }
        else db1
      | none => db1
    let db3 :=
      match gm with
      | some _ => if neoOk then { db2 with graph := deleteGraphBySourceId db2.graph id } else db2
      | none => db2
    .ok db3

/-! ### Hop-depth validation (claim C2) -/

theorem safeHopDepth_cast_iff (hd : ℚ) :
    (safeHopDepth hd : ℚ) = hd ↔ ∃ n : ℤ, hd = (n : ℚ) ∧ 1 ≤ n ∧ n ≤ 5 := by
  constructor
  · intro h
    refine ⟨safeHopDepth hd, h.symm, le_max_left 1 _, ?_⟩
    exact max_le (by norm_num) (min_le_left 5 _)
  · rintro ⟨n, rfl, h1, h5⟩
    have hfl : ⌊(n : ℚ)⌋ = n := Int.floor_intCast n
    have : safeHopDepth (n : ℚ) = n := by
      rw [safeHopDepth, hfl, min_eq_right h5, max_eq_right h1]
    rw [this]

/-- C2. hopDepth validation: `fetchGraphFacts` succeeds exactly when the
supplied hopDepth is an integer in the closed range [1, 5]; any other
(finite numeric) hopDepth makes it throw the invalid-hopDepth error before
any query, independent of the graph contents. -/
theorem fetchGraphFacts_hopDepth_validation (g : Neo4jDB) (q : Str)
    (scope : List Str) (limit : ℕ) (hd : ℚ) :
    ((∃ fs, fetchGraphFacts g q scope limit hd = .ok fs) ↔
      ∃ n : ℤ, hd = (n : ℚ) ∧ 1 ≤ n ∧ n ≤ 5) ∧
    ((fetchGraphFacts g q scope limit hd =
        .error "Invalid hopDepth: must be an integer between 1 and 5") ↔
      ¬∃ n : ℤ, hd = (n : ℚ) ∧ 1 ≤ n ∧ n ≤ 5) := by
  unfold fetchGraphFacts
  by_cases h : (safeHopDepth hd : ℚ) = hd
  · rw [if_pos h]
    constructor
    · constructor
      · intro _
        exact (safeHopDepth_cast_iff hd).mp h
      · intro _
        exact ⟨_, rfl⟩
    · constructor
      · intro hx
        exact absurd hx (by simp)
      · intro hx
        exact absurd ((safeHopDepth_cast_iff hd).mp h) hx
  · rw [if_neg h]
    constructor
    · constructor
      · rintro ⟨fs, hfs⟩
        exact absurd hfs (by simp)
      · intro hx
        exact absurd ((safeHopDepth_cast_iff hd).mpr hx) h
    · constructor
      · intro _
        exact fun hx => h ((safeHopDepth_cast_iff hd).mpr hx)
      · intro _
        rfl

/-- Evaluation of `fetchGraphFacts` at an in-range integer depth, used to
instantiate the retrieval theorems on concrete stores. -/
theorem fetchGraphFacts_intDepth (g : Neo4jDB) (q : Str) (scope : List Str)
    (limit : ℕ) (n : ℤ) (h1 : 1 ≤ n) (h5 : n ≤ 5) :
    fetchGraphFacts g q scope limit (n : ℚ) =
      .ok (fetchGraphFactsValid g q scope limit n.toNat) := by
  have hs : safeHopDepth (n : ℚ) = n := by
    rw [safeHopDepth, Int.floor_intCast, min_eq_right h5, max_eq_right h1]
  unfold fetchGraphFacts
  rw [if_pos (by rw [hs]), hs]

/-- Evaluation at the default hop depth 2. -/
theorem fetchGraphFacts_depth_two (g : Neo4jDB) (q : Str) (scope : List Str)
    (limit : ℕ) :
    fetchGraphFacts g q scope limit 2 =
      .ok (fetchGraphFactsValid g q scope limit 2) := by
  have h := fetchGraphFacts_intDepth g q scope limit 2 (by norm_num) (by norm_num)
  norm_num at h
  exact h

/-! ### Provenance of retrieved facts (claims C1, C3) -/

/-- A fact whose every constituent node is scoped to `scope`. -/
def FactInScopeB (scope : List Str) : Fact → Bool
  | .entity a _ _ => a.inScopeB scope
  | .relation s _ o _ _ => s.inScopeB scope && o.inScopeB scope

theorem jsMapGet_mem {nodes : List GNode} {k : ℕ} {n : GNode}
    (h : jsMapGet nodes k = some n) : n ∈ nodes := by
  unfold jsMapGet at h
  have h1 : n ∈ nodes.filter (fun n => n.nid == k) :=
    List.mem_of_mem_getLast? (by simpa using h)
  exact (List.mem_filter.mp h1).1

theorem mem_stepCandidates {g : Neo4jDB} {scope : List Str} {cur : ℕ}
    {used : List ℕ} {s : Step} (h : s ∈ stepCandidates g scope cur used) :
    s.node.inScopeB scope = true ∧ s.node ∈ g.nodes := by
  unfold stepCandidates at h
  rw [List.mem_filterMap] at h
  obtain ⟨r, _, hmap⟩ := h
  rcases hfind : g.nodes.find? (fun n => n.nid == otherEnd r cur) with _ | n
  · rw [hfind] at hmap
    simp at hmap
  · rw [hfind] at hmap
    have hmap2 : (if n.inScopeB scope = true then some (⟨r, n⟩ : Step) else none) = some s := hmap
    by_cases hsc : n.inScopeB scope = true
    · rw [if_pos hsc] at hmap2
      obtain rfl := Option.some_injective _ hmap2
      exact ⟨hsc, List.mem_of_find?_eq_some hfind⟩
    · rw [if_neg hsc] at hmap2
      simp at hmap2

theorem walksFrom_steps_inScope {g : Neo4jDB} {scope : List Str} :
    ∀ (d cur : ℕ) (used : List ℕ) (w : List Step),
      w ∈ walksFrom g scope d cur used → ∀ s ∈ w, s.node.inScopeB scope = true := by
  intro d
  induction d with
  | zero => intro cur used w hw; simp [walksFrom] at hw
  | succ d ih =>
    intro cur used w hw s hs
    unfold walksFrom at hw
    rw [List.mem_flatMap] at hw
    obtain ⟨s0, hs0, hw⟩ := hw
    rcases List.mem_cons.mp hw with rfl | hw2
    · rcases List.mem_singleton.mp hs with rfl
      exact (mem_stepCandidates hs0).1
    · rw [List.mem_map] at hw2
      obtain ⟨w0, hw0, rfl⟩ := hw2
      rcases List.mem_cons.mp hs with rfl | hs2
      · exact (mem_stepCandidates hs0).1
      · exact ih s0.node.nid (s0.rel.rid :: used) w0 hw0 s hs2

theorem mem_anchorsOf {g : Neo4jDB} {q : Str} {scope : List Str} {limit : ℕ}
    {a : GNode} (h : a ∈ anchorsOf g q scope limit) :
    anchorPredB q scope a = true ∧ a ∈ g.nodes := by
  unfold anchorsOf at h
  have h1 : a ∈ sortByLe (anchorLe q) (g.nodes.filter (anchorPredB q scope)) :=
    List.mem_of_mem_take h
  have h2 : a ∈ g.nodes.filter (anchorPredB q scope) := mem_sortByLe.mp h1
  have h3 := List.mem_filter.mp h2
  exact ⟨h3.2, h3.1⟩

theorem anchorPredB_inScope {q : Str} {scope : List Str} {a : GNode}
    (h : anchorPredB q scope a = true) : a.inScopeB scope = true := by
  unfold anchorPredB at h
  rw [Bool.and_eq_true, Bool.and_eq_true] at h
  exact h.1.2

/-- Every record of the retrieval query carries an in-scope anchor, the
anchor's match score, and only in-scope path nodes. -/
theorem recordsOf_shape {g : Neo4jDB} {q : Str} {scope : List Str}
    {limit d : ℕ} {r : QueryRecord} (h : r ∈ recordsOf g q scope limit d) :
    r.anchor.inScopeB scope = true ∧
    r.matchScore = matchScoreT q r.anchor ∧
    (∀ n ∈ r.pathNodes, n.inScopeB scope = true) := by
  unfold recordsOf at h
  rw [List.mem_flatMap] at h
  obtain ⟨a, ha, h⟩ := h
  rw [List.mem_flatMap] at h
  obtain ⟨pp, hpp, h⟩ := h
  rw [List.mem_map] at h
  obtain ⟨fp, _, rfl⟩ := h
  have hanch : a.inScopeB scope = true :=
    anchorPredB_inScope (mem_anchorsOf ha).1
  refine ⟨hanch, rfl, ?_⟩
  intro n hn
  unfold pathParts at hpp
  by_cases hps : (pathsOf g scope d a).isEmpty = true
  · rw [if_pos hps] at hpp
    rcases List.mem_singleton.mp hpp with rfl
    simp at hn
  · rw [if_neg hps] at hpp
    rw [List.mem_map] at hpp
    obtain ⟨w, hw, rfl⟩ := hpp
    have hw2 : w ∈ walksFrom g scope d a.nid [] :=
      (List.mem_filter.mp hw).1
    simp only at hn
    rcases List.mem_cons.mp hn with rfl | hn2
    · exact hanch
    · rw [List.mem_map] at hn2
      obtain ⟨st, hst, rfl⟩ := hn2
      exact walksFrom_steps_inScope d a.nid [] w hw2 st hst

/-- Provenance of a relation fact from one query record: the j-th path
relationship (hop distance j+1), endpoints resolved through the path node
map, relevance `max(0.1, matchScore - hopDistance*0.3)` in tenths. -/
def RelFactProv (r : QueryRecord) (f : Fact) : Prop :=
  ∃ (j : ℕ) (e : GRel), r.pathRels[j]? = some e ∧
    ∃ sn en, jsMapGet r.pathNodes e.startId = some sn ∧
      jsMapGet r.pathNodes e.endId = some en ∧
      f = .relation sn e.relType en
        (jsMaxInt 1 (r.matchScore - (((j : ℤ)) + 1) * 3)) e.rid

theorem relLoop_mem_cases (ms : ℤ) (nodes : List GNode) :
    ∀ (rels : List GRel) (i : ℕ) (facts : List Fact) (seen : List ℕ),
      ∀ f ∈ (relLoop ms nodes rels i facts seen).1,
        f ∈ facts ∨
        ∃ j e, rels[j]? = some e ∧
          ∃ sn en, jsMapGet nodes e.startId = some sn ∧
            jsMapGet nodes e.endId = some en ∧
            f = .relation sn e.relType en
              (jsMaxInt 1 (ms - (((i + j : ℕ) : ℤ) + 1) * 3)) e.rid := by
  intro rels
  induction rels with
  | nil => intro i facts seen f hf; left; simpa [relLoop] using hf
  | cons rel rest ih =>
    intro i facts seen f hf
    rw [relLoop] at hf
    by_cases hseen : seen.contains rel.rid = true
    · rw [if_pos hseen] at hf
      rcases ih (i + 1) facts seen f hf with hl | ⟨j, e, hje, sn, en, hsn, hen, rfl⟩
      · exact Or.inl hl
      · refine Or.inr ⟨j + 1, e, by simpa using hje, sn, en, hsn, hen, ?_⟩
        have harith : ((i + (j + 1) : ℕ) : ℤ) = (((i + 1) + j : ℕ) : ℤ) := by
          push_cast; ring
        rw [harith]
    · rw [if_neg hseen] at hf
      rcases hsn0 : jsMapGet nodes rel.startId with _ | sn0
      · rw [hsn0] at hf
        rcases hen0 : jsMapGet nodes rel.endId with _ | en0 <;> rw [hen0] at hf
        · rcases ih (i + 1) facts seen f hf with hl | ⟨j, e, hje, sn, en, hsn, hen, rfl⟩
          · exact Or.inl hl
          · refine Or.inr ⟨j + 1, e, by simpa using hje, sn, en, hsn, hen, ?_⟩
            have harith : ((i + (j + 1) : ℕ) : ℤ) = (((i + 1) + j : ℕ) : ℤ) := by
              push_cast; ring
            rw [harith]
        · rcases ih (i + 1) facts seen f hf with hl | ⟨j, e, hje, sn, en, hsn, hen, rfl⟩
          · exact Or.inl hl
          · refine Or.inr ⟨j + 1, e, by simpa using hje, sn, en, hsn, hen, ?_⟩
            have harith : ((i + (j + 1) : ℕ) : ℤ) = (((i + 1) + j : ℕ) : ℤ) := by
              push_cast; ring
            rw [harith]
      · rw [hsn0] at hf
        rcases hen0 : jsMapGet nodes rel.endId with _ | en0 <;> rw [hen0] at hf
        · rcases ih (i + 1) facts seen f hf with hl | ⟨j, e, hje, sn, en, hsn, hen, rfl⟩
          · exact Or.inl hl
          · refine Or.inr ⟨j + 1, e, by simpa using hje, sn, en, hsn, hen, ?_⟩
            have harith : ((i + (j + 1) : ℕ) : ℤ) = (((i + 1) + j : ℕ) : ℤ) := by
              push_cast; ring
            rw [harith]
        · rcases ih (i + 1) (facts ++ [.relation sn0 rel.relType en0
              (jsMaxInt 1 (ms - ((i : ℤ) + 1) * 3)) rel.rid])
              (seen ++ [rel.rid]) f hf with hl | ⟨j, e, hje, sn, en, hsn, hen, rfl⟩
          · rcases List.mem_append.mp hl with hl2 | hl2
            · exact Or.inl hl2
            · rcases List.mem_singleton.mp hl2 with rfl
              exact Or.inr ⟨0, rel, by simp, sn0, en0, hsn0, hen0, rfl⟩
          · refine Or.inr ⟨j + 1, e, by simpa using hje, sn, en, hsn, hen, ?_⟩
            have harith : ((i + (j + 1) : ℕ) : ℤ) = (((i + 1) + j : ℕ) : ℤ) := by
              push_cast; ring
            rw [harith]

theorem secondPass_mem {recs : List QueryRecord} :
    ∀ (acc : List Fact × List ℕ),
      ∀ f ∈ (recs.foldl secondPassStep acc).1,
        f ∈ acc.1 ∨ ∃ r ∈ recs, RelFactProv r f := by
  induction recs with
  | nil => intro acc f hf; exact Or.inl hf
  | cons r rest ih =>
    intro acc f hf
    rw [List.foldl_cons] at hf
    rcases ih (secondPassStep acc r) f hf with hl | ⟨r2, hr2, hprov⟩
    · unfold secondPassStep at hl
      by_cases hskip : (r.pathNodes.isEmpty || r.pathRels.isEmpty) = true
      · rw [if_pos hskip] at hl
        exact Or.inl hl
      · rw [if_neg hskip] at hl
        rcases relLoop_mem_cases r.matchScore r.pathNodes r.pathRels 0 acc.1 acc.2
            f hl with hl2 | ⟨j, e, hje, sn, en, hsn, hen, rfl⟩
        · exact Or.inl hl2
        · refine Or.inr ⟨r, List.mem_cons_self r rest, j, e, hje, sn, en, hsn, hen, ?_⟩
          simp
    · exact Or.inr ⟨r2, List.mem_cons_of_mem r hr2, hprov⟩

theorem mem_collectAnchorRecords {recs : List QueryRecord} {r : QueryRecord}
    (h : r ∈ collectAnchorRecords recs) : r ∈ recs := by
  unfold collectAnchorRecords at h
  suffices hgen : ∀ (l : List QueryRecord) (acc : List QueryRecord),
      r ∈ l.foldl collectStep acc → r ∈ acc ∨ r ∈ l by
    rcases hgen recs [] h with hx | hx
    · simp at hx
    · exact hx
  intro l
  induction l with
  | nil => intro acc h2; exact Or.inl h2
  | cons x xs ih =>
    intro acc h2
    rw [List.foldl_cons] at h2
    rcases ih (collectStep acc x) h2 with hx | hx
    · unfold collectStep at hx
      by_cases hdup : (acc.any fun r2 => r2.anchor.nid == x.anchor.nid) = true
      · rw [if_pos hdup] at hx
        exact Or.inl hx
      · rw [if_neg hdup] at hx
        rcases List.mem_append.mp hx with hy | hy
        · exact Or.inl hy
        · rcases List.mem_singleton.mp hy with rfl
          exact Or.inr (List.mem_cons_self _ _)
    · exact Or.inr (List.mem_cons_of_mem x hx)

theorem mem_entityFactsOf {recs : List QueryRecord} {f : Fact}
    (h : f ∈ entityFactsOf recs) :
    ∃ r ∈ recs, f = .entity r.anchor (jsOrStr r.filePath "unknown".data) r.matchScore := by
  unfold entityFactsOf at h
  rw [List.mem_map] at h
  obtain ⟨r, hr, rfl⟩ := h
  exact ⟨r, mem_collectAnchorRecords hr, rfl⟩

/-- Any fact of the unsorted fact list is either an anchor entity fact of
some record or a relation fact with full provenance from some record. -/
theorem rawFacts_provenance {g : Neo4jDB} {q : Str} {scope : List Str}
    {limit d : ℕ} {f : Fact} (h : f ∈ rawFacts g q scope limit d) :
    (∃ r ∈ recordsOf g q scope limit d,
      f = .entity r.anchor (jsOrStr r.filePath "unknown".data) r.matchScore) ∨
    (∃ r ∈ recordsOf g q scope limit d, RelFactProv r f) := by
  unfold rawFacts at h
  rcases @secondPass_mem (recordsOf g q scope limit d)
      (entityFactsOf (recordsOf g q scope limit d), []) f h with hl | hr
  · exact Or.inl (mem_entityFactsOf hl)
  · exact Or.inr hr

/-- C1. Source-scope isolation: every fact returned by a successful
`fetchGraphFacts` call is built only from nodes whose `sourceId` is a member
of the requested `sourceIds` — the anchor of each entity fact and the
subject and object of each relation fact are all in scope. -/
theorem fetchGraphFacts_source_scoped (g : Neo4jDB) (q : Str)
    (scope : List Str) (limit : ℕ) (hd : ℚ) (facts : List Fact)
    (hok : fetchGraphFacts g q scope limit hd = .ok facts) :
    ∀ f ∈ facts, FactInScopeB scope f = true := by
  intro f hf
  unfold fetchGraphFacts at hok
  by_cases hv : (safeHopDepth hd : ℚ) = hd
  · rw [if_pos hv] at hok
    obtain rfl : fetchGraphFactsValid g q scope limit (safeHopDepth hd).toNat = facts :=
      by injection hok
    have hraw : f ∈ rawFacts g q scope limit (safeHopDepth hd).toNat :=
      mem_sortByLe.mp hf
    rcases rawFacts_provenance hraw with ⟨r, hr, rfl⟩ | ⟨r, hr, hprov⟩
    · have := recordsOf_shape hr
      simpa [FactInScopeB] using this.1
    · obtain ⟨j, e, hje, sn, en, hsn, hen, rfl⟩ := hprov
      have hshape := recordsOf_shape hr
      have hsnS : sn.inScopeB scope = true :=
        hshape.2.2 sn (jsMapGet_mem hsn)
      have henS : en.inScopeB scope = true :=
        hshape.2.2 en (jsMapGet_mem hen)
      simp [FactInScopeB, hsnS, henS]
  · rw [if_neg hv] at hok
    exact absurd hok (by simp)

/-! ### A concrete retrieval store, used to instantiate the theorems

Entities `cache` (exact match), `cacheManager` (prefix), `LocalCache`
(substring) under source `A`, an entity under source `B`, a `File` node
mentioning `cache`, and edges `cache-USES->cacheManager`,
`cacheManager-DEPENDS_ON->LocalCache`, plus a cross-source edge. -/

def exN1 : GNode :=
  ⟨1, ["Entity".data], some "cache".data, some "Concept".data, some "A".data, none⟩

def exN2 : GNode :=
  ⟨2, ["Entity".data], some "cacheManager".data, some "Class".data, some "A".data, none⟩

def exN3 : GNode :=
  ⟨3, ["Entity".data], some "LocalCache".data, some "Class".data, some "A".data, none⟩

def exN4 : GNode :=
  ⟨4, ["Entity".data], some "cacheB".data, some "Concept".data, some "B".data, none⟩

def exN5 : GNode :=
  ⟨5, ["File".data], none, none, some "A".data, some "src/c.js".data⟩

def exDB : Neo4jDB :=
  ⟨[exN1, exN2, exN3, exN4, exN5],
   [⟨1, 1, 2, "USES".data⟩, ⟨2, 2, 3, "DEPENDS_ON".data⟩,
    ⟨3, 1, 4, "USES".data⟩, ⟨4, 5, 1, "MENTIONS".data⟩]⟩

/-- The facts the example query returns (anchor `cache` scores 30 with its
defining file, the hop-1 edge 27, the hop-2 edge 24, the other anchors 20
and 10, already sorted). -/
def exFacts : List Fact := fetchGraphFactsValid exDB "cache".data ["A".data] 10 2

/-- Witness for C1 at the example store: the query for "cache" scoped to
source A succeeds and its first fact is scoped to A. -/
theorem fetchGraphFacts_source_scoped_witness :
    FactInScopeB ["A".data] (exFacts.headD (.entity exN1 [] 0)) = true :=
  fetchGraphFacts_source_scoped exDB "cache".data ["A".data] 10 2 exFacts
    (fetchGraphFacts_depth_two exDB "cache".data ["A".data] 10)
    (exFacts.headD (.entity exN1 [] 0)) (by decide)

/-! ### Relevance scoring and edge deduplication (claim C3) -/

/-- The number of relation facts carrying relationship identity `rid`. -/
def countRel (facts : List Fact) (rid : ℕ) : ℕ :=
  facts.countP (fun f => f.relId? == some rid)

/-- The dedup invariant threaded through the second pass: every edge
identity occurs at most once among the facts, and every occurring identity
is recorded in `seenRelations`. -/
def DedupInv (facts : List Fact) (seen : List ℕ) : Prop :=
  ∀ rid, countRel facts rid ≤ 1 ∧ (1 ≤ countRel facts rid → rid ∈ seen)

theorem countRel_append_relation (facts : List Fact) (sn : GNode) (p : Str)
    (en : GNode) (rv : ℤ) (rid rid2 : ℕ) :
    countRel (facts ++ [.relation sn p en rv rid]) rid2 =
      countRel facts rid2 + (if rid = rid2 then 1 else 0) := by
  unfold countRel
  rw [List.countP_append]
  congr 1
  by_cases h : rid = rid2
  · subst h
    simp [List.countP_cons, Fact.relId?]
  · have hb : (rid == rid2) = false := by simpa using h
    simp [List.countP_cons, Fact.relId?, hb, h]

theorem relLoop_dedup (ms : ℤ) (nodes : List GNode) :
    ∀ (rels : List GRel) (i : ℕ) (facts : List Fact) (seen : List ℕ),
      DedupInv facts seen →
      DedupInv (relLoop ms nodes rels i facts seen).1
        (relLoop ms nodes rels i facts seen).2 := by
  intro rels
  induction rels with
  | nil => intro i facts seen h; simpa [relLoop] using h
  | cons rel rest ih =>
    intro i facts seen h
    rw [relLoop]
    by_cases hseen : seen.contains rel.rid = true
    · rw [if_pos hseen]
      exact ih (i + 1) facts seen h
    · rw [if_neg hseen]
      rcases hsn0 : jsMapGet nodes rel.startId with _ | sn0
      · exact ih (i + 1) facts seen h
      · rcases hen0 : jsMapGet nodes rel.endId with _ | en0
        · exact ih (i + 1) facts seen h
        · refine ih (i + 1) _ _ ?_
          have hnotmem : rel.rid ∉ seen := by
            have hcf : seen.contains rel.rid = false := by
              simpa using hseen
            simpa using hcf
          have hzero : countRel facts rel.rid = 0 := by
            by_contra hz
            have h1 : 1 ≤ countRel facts rel.rid := Nat.one_le_iff_ne_zero.mpr hz
            exact hnotmem ((h rel.rid).2 h1)
          intro rid2
          rw [countRel_append_relation]
          by_cases heq : rel.rid = rid2
          · subst heq
            rw [hzero]
            exact ⟨by norm_num, fun _ => List.mem_append_right _ (by simp)⟩
          · rw [if_neg heq]
            refine ⟨by simpa using (h rid2).1, fun h1 => ?_⟩
            exact List.mem_append_left _ ((h rid2).2 (by simpa using h1))

theorem secondPass_dedup (recs : List QueryRecord) :
    ∀ (acc : List Fact × List ℕ), DedupInv acc.1 acc.2 →
      DedupInv (recs.foldl secondPassStep acc).1 (recs.foldl secondPassStep acc).2 := by
  induction recs with
  | nil => intro acc h; exact h
  | cons r rest ih =>
    intro acc h
    rw [List.foldl_cons]
    refine ih (secondPassStep acc r) ?_
    unfold secondPassStep
    by_cases hskip : (r.pathNodes.isEmpty || r.pathRels.isEmpty) = true
    · rw [if_pos hskip]; exact h
    · rw [if_neg hskip]
      exact relLoop_dedup r.matchScore r.pathNodes r.pathRels 0 acc.1 acc.2 h

theorem countRel_entityFactsOf (recs : List QueryRecord) (rid : ℕ) :
    countRel (entityFactsOf recs) rid = 0 := by
  unfold countRel
  rw [List.countP_eq_zero]
  intro f hf
  obtain ⟨r, _, rfl⟩ := mem_entityFactsOf hf
  simp [Fact.relId?]

theorem rawFacts_dedup (g : Neo4jDB) (q : Str) (scope : List Str)
    (limit d : ℕ) (rid : ℕ) : countRel (rawFacts g q scope limit d) rid ≤ 1 := by
  unfold rawFacts secondPass
  refine (secondPass_dedup (recordsOf g q scope limit d)
    (entityFactsOf (recordsOf g q scope limit d), []) ?_ rid).1
  intro rid2
  rw [countRel_entityFactsOf]
  exact ⟨by norm_num, by omega⟩

/-- C3. Relevance scoring: in a successful result, every anchor entity fact
carries the anchor's CASE match score — 30 tenths (3) for an exact
case-insensitive name match, 20 tenths (2) for a proper prefix match, 10
tenths (1) otherwise; every relation fact has an owning record on whose
expansion path its edge sits at hop distance j+1, with relevance
`max(0.1, matchScore - 0.3*(j+1))` in tenths; and every relationship
identity yields at most one relation fact. -/
theorem fetchGraphFacts_relevance_scoring (g : Neo4jDB) (q : Str)
    (scope : List Str) (limit : ℕ) (hd : ℚ) (facts : List Fact)
    (hok : fetchGraphFacts g q scope limit hd = .ok facts) :
    (∀ f ∈ facts, ∀ a dI rv, f = .entity a dI rv →
      rv = matchScoreT q a ∧
      (∀ nm, a.name = some nm → lowerStr nm = lowerStr q → rv = 30) ∧
      (∀ nm, a.name = some nm → lowerStr nm ≠ lowerStr q →
        strStartsWith (lowerStr nm) (lowerStr q) = true → rv = 20) ∧
      (∀ nm, a.name = some nm → lowerStr nm ≠ lowerStr q →
        strStartsWith (lowerStr nm) (lowerStr q) = false → rv = 10)) ∧
    (∀ f ∈ facts, ∀ sn p en rv rid, f = .relation sn p en rv rid →
      ∃ r ∈ recordsOf g q scope limit (safeHopDepth hd).toNat,
        r.matchScore = matchScoreT q r.anchor ∧ RelFactProv r f) ∧
    (∀ rid : ℕ, countRel facts rid ≤ 1) := by
  unfold fetchGraphFacts at hok
  by_cases hv : (safeHopDepth hd : ℚ) = hd
  · rw [if_pos hv] at hok
    obtain rfl : fetchGraphFactsValid g q scope limit (safeHopDepth hd).toNat = facts :=
      by injection hok
    refine ⟨?_, ?_, ?_⟩
    · intro f hf a dI rv hform
      have hraw := mem_sortByLe.mp hf
      rcases rawFacts_provenance hraw with ⟨r, hr, heq⟩ | ⟨r, hr, hprov⟩
      · rw [hform] at heq
        obtain ⟨rfl, _, rfl⟩ : a = r.anchor ∧ dI = jsOrStr r.filePath "unknown".data ∧
            rv = r.matchScore := by
          injection heq with h1 h2 h3
          exact ⟨h1, h2, h3⟩
        have hms := (recordsOf_shape hr).2.1
        refine ⟨hms, ?_, ?_, ?_⟩
        · intro nm hnm hlow
          rw [hms]
          unfold matchScoreT
          rw [hnm]
          simp [hlow]
        · intro nm hnm hne hpre
          rw [hms]
          unfold matchScoreT
          rw [hnm]
          simp [hne, hpre]
        · intro nm hnm hne hpre
          rw [hms]
          unfold matchScoreT
          rw [hnm]
          simp [hne, hpre]
      · obtain ⟨j, e, _, sn, en, _, _, heq2⟩ := hprov
        rw [hform] at heq2
        exact absurd heq2 (by simp)
    · intro f hf sn p en rv rid hform
      have hraw := mem_sortByLe.mp hf
      rcases rawFacts_provenance hraw with ⟨r, hr, heq⟩ | ⟨r, hr, hprov⟩
      · rw [hform] at heq
        exact absurd heq (by simp)
      · exact ⟨r, hr, (recordsOf_shape hr).2.1, hprov⟩
    · intro rid
      have hperm := sortByLe_perm factLe (rawFacts g q scope limit (safeHopDepth hd).toNat)
      unfold fetchGraphFactsValid countRel
      rw [hperm.countP_eq]
      exact rawFacts_dedup g q scope limit (safeHopDepth hd).toNat rid
  · rw [if_neg hv] at hok
    exact absurd hok (by simp)

/-- Witness for C3 at the example store: the successful example query has
at most one relation fact for edge identity 1. -/
theorem fetchGraphFacts_relevance_scoring_witness : countRel exFacts 1 ≤ 1 :=
  (fetchGraphFacts_relevance_scoring exDB "cache".data ["A".data] 10 2 exFacts
    (fetchGraphFacts_depth_two exDB "cache".data ["A".data] 10)).2.2 1

/-! ### Output ordering (claim C4) -/

/-- C4. Ordering: a successful result is sorted by relevance in descending
order (pairwise cross and index-monotone), and the sort is stable — the facts of
any fixed relevance appear exactly as in the unsorted insertion-order list. -/
theorem fetchGraphFacts_ordering (g : Neo4jDB) (q : Str) (scope : List Str)
    (limit : ℕ) (hd : ℚ) (facts : List Fact)
    (hok : fetchGraphFacts g q scope limit hd = .ok facts) :
    List.Pairwise (fun a b => b.relevance ≤ a.relevance) facts ∧
    (∀ rv : ℤ, facts.filter (fun f => f.relevance == rv) =
      (rawFacts g q scope limit (safeHopDepth hd).toNat).filter
        (fun f => f.relevance == rv)) ∧
    (∀ (i j : ℕ) (hi : i < facts.length) (hj : j < facts.length), i ≤ j →
      (facts.get ⟨j, hj⟩).relevance ≤ (facts.get ⟨i, hi⟩).relevance) := by
  have hfacts : facts = fetchGraphFactsValid g q scope limit (safeHopDepth hd).toNat := by
    unfold fetchGraphFacts at hok
    by_cases hv : (safeHopDepth hd : ℚ) = hd
    · rw [if_pos hv] at hok
      injection hok with h2
      exact h2.symm
    · rw [if_neg hv] at hok
      exact absurd hok (by simp)
  subst hfacts
  have htot : ∀ a b : Fact, factLe a b = false → factLe b a = true := by
    intro a b hab
    have h1 : ¬ b.relevance ≤ a.relevance := of_decide_eq_false hab
    exact decide_eq_true_eq.mpr (le_of_not_le h1)
  have htrans : ∀ a b c : Fact, factLe a b = true → factLe b c = true →
      factLe a c = true := by
    intro a b c h1 h2
    have := le_trans (of_decide_eq_true h2) (of_decide_eq_true h1)
    exact decide_eq_true_eq.mpr this
  have hpw0 := pairwise_sortByLe htot htrans
    (rawFacts g q scope limit (safeHopDepth hd).toNat)
  have hpw : List.Pairwise (fun a b : Fact => b.relevance ≤ a.relevance)
      (fetchGraphFactsValid g q scope limit (safeHopDepth hd).toNat) :=
    hpw0.imp (fun h => of_decide_eq_true h)
  refine ⟨hpw, ?_, ?_⟩
  · intro rv
    refine filter_sortByLe ?_ _
    intro a b ha hb
    have ha2 : a.relevance = rv := by simpa using ha
    have hb2 : b.relevance = rv := by simpa using hb
    exact decide_eq_true_eq.mpr (by rw [ha2, hb2])
  · intro i j hi hj hij
    rcases Nat.lt_or_ge i j with hlt | hge
    · exact List.pairwise_iff_get.mp hpw ⟨i, hi⟩ ⟨j, hj⟩ hlt
    · have hij2 : i = j := le_antisymm hij hge
      subst hij2
      rfl

/-- Witness for C4 at the example store: the example result is pairwise
sorted by descending relevance. -/
theorem fetchGraphFacts_ordering_witness :
    List.Pairwise (fun a b : Fact => b.relevance ≤ a.relevance) exFacts :=
  (fetchGraphFacts_ordering exDB "cache".data ["A".data] 10 2 exFacts
    (fetchGraphFacts_depth_two exDB "cache".data ["A".data] 10)).1

/-! ### Builder counters and per-chunk isolation (claims C5, C10) -/

/-- The `(nodesAdded, relationshipsAdded)` counters of a PDF build result. -/
def buildCounters (r : Except String (GraphStore × ℕ × ℕ)) : Option (ℕ × ℕ) :=
  r.toOption.map (fun x => (x.2.1, x.2.2))

/-- The `(nodesAdded, relationshipsAdded)` counters of a repo build result. -/
def buildCountersRepo (r : Except String (GraphStore × List Str × ℕ × ℕ)) :
    Option (ℕ × ℕ) :=
  r.toOption.map (fun x => (x.2.2.1, x.2.2.2))

theorem processGraphDocPDF_counts (sid : Str) (acc : GraphStore × ℕ × ℕ)
    (gd : GraphDocX) :
    (processGraphDocPDF sid acc gd).2.1 = acc.2.1 + (docCounts gd).1 ∧
    (processGraphDocPDF sid acc gd).2.2 = acc.2.2 + (docCounts gd).2 := by
  unfold processGraphDocPDF docCounts
  by_cases h : (normalizedNodes gd).isEmpty = true <;> simp [h]

theorem foldl_processGraphDocPDF_counts (sid : Str) :
    ∀ (gds : List GraphDocX) (acc : GraphStore × ℕ × ℕ),
      (gds.foldl (processGraphDocPDF sid) acc).2.1 =
        acc.2.1 + (gds.map (fun gd => (docCounts gd).1)).sum ∧
      (gds.foldl (processGraphDocPDF sid) acc).2.2 =
        acc.2.2 + (gds.map (fun gd => (docCounts gd).2)).sum := by
  intro gds
  induction gds with
  | nil => intro acc; simp
  | cons gd rest ih =>
    intro acc
    rw [List.foldl_cons, List.map_cons, List.sum_cons, List.map_cons, List.sum_cons]
    have h1 := processGraphDocPDF_counts sid acc gd
    have h2 := ih (processGraphDocPDF sid acc gd)
    exact ⟨by omega, by omega⟩

theorem processChunkPDF_counts (sid : Str) (acc : GraphStore × ℕ × ℕ)
    (c : PDFChunk) :
    (processChunkPDF sid acc c).2.1 = acc.2.1 + (pdfChunkCounts c).1 ∧
    (processChunkPDF sid acc c).2.2 = acc.2.2 + (pdfChunkCounts c).2 := by
  cases c with
  | error e => simp [processChunkPDF, pdfChunkCounts]
  | ok gds =>
    simpa [processChunkPDF, pdfChunkCounts] using
      foldl_processGraphDocPDF_counts sid gds acc

theorem foldl_processChunkPDF_counts (sid : Str) :
    ∀ (docs : List PDFChunk) (acc : GraphStore × ℕ × ℕ),
      (docs.foldl (processChunkPDF sid) acc).2.1 =
        acc.2.1 + (docs.map (fun c => (pdfChunkCounts c).1)).sum ∧
      (docs.foldl (processChunkPDF sid) acc).2.2 =
        acc.2.2 + (docs.map (fun c => (pdfChunkCounts c).2)).sum := by
  intro docs
  induction docs with
  | nil => intro acc; simp
  | cons c rest ih =>
    intro acc
    rw [List.foldl_cons, List.map_cons, List.sum_cons, List.map_cons, List.sum_cons]
    have h1 := processChunkPDF_counts sid acc c
    have h2 := ih (processChunkPDF sid acc c)
    exact ⟨by omega, by omega⟩

theorem buildPDFGraph_eq (sid : Str) (docs : List PDFChunk) (g0 : GraphStore)
    (hsid : sid.isEmpty = false) (hdocs : docs.isEmpty = false) :
    buildPDFGraph sid docs g0 =
      .ok (docs.foldl (processChunkPDF sid) (mergeSourceNode g0 sid "pdf".data, 0, 0)) := by
  unfold buildPDFGraph
  rw [if_neg (by simp [hsid]), if_neg (by simp [hdocs])]

theorem buildPDFGraph_counts (sid : Str) (docs : List PDFChunk) (g0 : GraphStore)
    (hsid : sid.isEmpty = false) (hdocs : docs.isEmpty = false) :
    buildCounters (buildPDFGraph sid docs g0) =
      some ((docs.map (fun c => (pdfChunkCounts c).1)).sum,
            (docs.map (fun c => (pdfChunkCounts c).2)).sum) := by
  rw [buildPDFGraph_eq sid docs g0 hsid hdocs]
  have h := foldl_processChunkPDF_counts sid docs (mergeSourceNode g0 sid "pdf".data, 0, 0)
  show some ((docs.foldl (processChunkPDF sid) (mergeSourceNode g0 sid "pdf".data, 0, 0)).2.1,
       (docs.foldl (processChunkPDF sid) (mergeSourceNode g0 sid "pdf".data, 0, 0)).2.2) = _
  rw [h.1, h.2]
  norm_num

theorem processGraphDocRepo_counts (sid filePath : Str)
    (acc : GraphStore × ℕ × ℕ) (gd : GraphDocX) :
    (processGraphDocRepo sid filePath acc gd).2.1 = acc.2.1 + (docCounts gd).1 ∧
    (processGraphDocRepo sid filePath acc gd).2.2 = acc.2.2 + (docCounts gd).2 := by
  unfold processGraphDocRepo docCounts
  by_cases h : (normalizedNodes gd).isEmpty = true <;> simp [h]

theorem foldl_processGraphDocRepo_counts (sid filePath : Str) :
    ∀ (gds : List GraphDocX) (acc : GraphStore × ℕ × ℕ),
      (gds.foldl (processGraphDocRepo sid filePath) acc).2.1 =
        acc.2.1 + (gds.map (fun gd => (docCounts gd).1)).sum ∧
      (gds.foldl (processGraphDocRepo sid filePath) acc).2.2 =
        acc.2.2 + (gds.map (fun gd => (docCounts gd).2)).sum := by
  intro gds
  induction gds with
  | nil => intro acc; simp
  | cons gd rest ih =>
    intro acc
    rw [List.foldl_cons, List.map_cons, List.sum_cons, List.map_cons, List.sum_cons]
    have h1 := processGraphDocRepo_counts sid filePath acc gd
    have h2 := ih (processGraphDocRepo sid filePath acc gd)
    exact ⟨by omega, by omega⟩

theorem processChunkRepo_counts (sid : Str) (acc : GraphStore × List Str × ℕ × ℕ)
    (doc : RepoDoc) :
    (processChunkRepo sid acc doc).2.2.1 = acc.2.2.1 + (repoChunkCounts doc).1 ∧
    (processChunkRepo sid acc doc).2.2.2 = acc.2.2.2 + (repoChunkCounts doc).2 := by
  unfold processChunkRepo repoChunkCounts
  rcases hx : doc.extract with e | gds
  · simp
  · simp only []
    have h := foldl_processGraphDocRepo_counts sid
      (jsOrStr (some doc.path) "unknown".data) gds
    rcases hseen : (acc.2.1.contains (jsOrStr (some doc.path) "unknown".data)) with _ | _
    all_goals
      simp only [hseen, if_true, if_false, Bool.false_eq_true]
      constructor
    · exact (h _).1
    · exact (h _).2
    · exact (h _).1
    · exact (h _).2

theorem foldl_processChunkRepo_counts (sid : Str) :
    ∀ (docs : List RepoDoc) (acc : GraphStore × List Str × ℕ × ℕ),
      (docs.foldl (processChunkRepo sid) acc).2.2.1 =
        acc.2.2.1 + (docs.map (fun c => (repoChunkCounts c).1)).sum ∧
      (docs.foldl (processChunkRepo sid) acc).2.2.2 =
        acc.2.2.2 + (docs.map (fun c => (repoChunkCounts c).2)).sum := by
  intro docs
  induction docs with
  | nil => intro acc; simp
  | cons c rest ih =>
    intro acc
    rw [List.foldl_cons, List.map_cons, List.sum_cons, List.map_cons, List.sum_cons]
    have h1 := processChunkRepo_counts sid acc c
    have h2 := ih (processChunkRepo sid acc c)
    exact ⟨by omega, by omega⟩

theorem buildGithubRepoGraph_eq (sid : Str) (docs : List RepoDoc) (g0 : GraphStore)
    (hsid : sid.isEmpty = false) (hdocs : docs.isEmpty = false) :
    buildGithubRepoGraph sid docs g0 =
      .ok (docs.foldl (processChunkRepo sid)
        (mergeSourceNode g0 sid "github_repo".data, [], 0, 0)) := by
  unfold buildGithubRepoGraph
  rw [if_neg (by simp [hsid]), if_neg (by simp [hdocs])]

theorem buildGithubRepoGraph_counts (sid : Str) (docs : List RepoDoc)
    (g0 : GraphStore) (hsid : sid.isEmpty = false) (hdocs : docs.isEmpty = false) :
    buildCountersRepo (buildGithubRepoGraph sid docs g0) =
      some ((docs.map (fun c => (repoChunkCounts c).1)).sum,
            (docs.map (fun c => (repoChunkCounts c).2)).sum) := by
  rw [buildGithubRepoGraph_eq sid docs g0 hsid hdocs]
  have h := foldl_processChunkRepo_counts sid docs
    (mergeSourceNode g0 sid "github_repo".data, [], 0, 0)
  show some
      ((docs.foldl (processChunkRepo sid) (mergeSourceNode g0 sid "github_repo".data, [], 0, 0)).2.2.1,
       (docs.foldl (processChunkRepo sid) (mergeSourceNode g0 sid "github_repo".data, [], 0, 0)).2.2.2) = _
  rw [h.1, h.2]
  norm_num

theorem setSourceStatus_spec (rows : List SourceRow) (id status : Str) :
    ∀ s ∈ setSourceStatus rows id status, s.id = id → s.status = status := by
  intro s hs hid
  unfold setSourceStatus at hs
  rw [List.mem_map] at hs
  obtain ⟨s0, _, rfl⟩ := hs
  by_cases h : (s0.id == id) = true
  · rw [if_pos h]
  · rw [if_neg h] at hid ⊢
    exact absurd (by simpa using hid) h

/-- C5. Per-chunk failure isolation: with a nonempty chunk list, both
builders always resolve successfully, their counters are the sums of the
per-chunk contributions — a chunk whose extraction failed contributes
`(0, 0)` while every sibling chunk is still counted — and the detached job
then persists `GraphMetadata` with exactly those counters and ends the
source in status `indexed`, not `failed`. -/
theorem buildGraph_per_chunk_isolation (sid : Str) (docs : List PDFChunk)
    (rdocs : List RepoDoc) (g0 : GraphStore) (db : AppDB)
    (hsid : sid.isEmpty = false) (hdocs : docs.isEmpty = false)
    (hrdocs : rdocs.isEmpty = false) :
    buildCounters (buildPDFGraph sid docs g0) =
      some ((docs.map (fun c => (pdfChunkCounts c).1)).sum,
            (docs.map (fun c => (pdfChunkCounts c).2)).sum) ∧
    buildCountersRepo (buildGithubRepoGraph sid rdocs g0) =
      some ((rdocs.map (fun c => (repoChunkCounts c).1)).sum,
            (rdocs.map (fun c => (repoChunkCounts c).2)).sum) ∧
    (runGraphJobPDF db sid docs).graphMeta = db.graphMeta ++
      [⟨sid, (docs.map (fun c => (pdfChunkCounts c).1)).sum,
        (docs.map (fun c => (pdfChunkCounts c).2)).sum⟩] ∧
    (∀ s ∈ (runGraphJobPDF db sid docs).sources, s.id = sid →
      s.status = "indexed".data) ∧
    (runGraphJobRepo db sid rdocs).graphMeta = db.graphMeta ++
      [⟨sid, (rdocs.map (fun c => (repoChunkCounts c).1)).sum,
        (rdocs.map (fun c => (repoChunkCounts c).2)).sum⟩] ∧
    (∀ s ∈ (runGraphJobRepo db sid rdocs).sources, s.id = sid →
      s.status = "indexed".data) := by
  have hpdf := buildPDFGraph_counts sid docs db.graph hsid hdocs
  have hrepo := buildGithubRepoGraph_counts sid rdocs db.graph hsid hrdocs
  have hjobP : runGraphJobPDF db sid docs =
      { db with
        graph := (docs.foldl (processChunkPDF sid)
          (mergeSourceNode db.graph sid "pdf".data, 0, 0)).1,
        graphMeta := db.graphMeta ++
          [⟨sid, (docs.foldl (processChunkPDF sid)
              (mergeSourceNode db.graph sid "pdf".data, 0, 0)).2.1,
            (docs.foldl (processChunkPDF sid)
              (mergeSourceNode db.graph sid "pdf".data, 0, 0)).2.2⟩],
        sources := setSourceStatus db.sources sid "indexed".data } := by
    unfold runGraphJobPDF
    rw [buildPDFGraph_eq sid docs db.graph hsid hdocs]
  have hjobR : runGraphJobRepo db sid rdocs =
      { db with
        graph := (rdocs.foldl (processChunkRepo sid)
          (mergeSourceNode db.graph sid "github_repo".data, [], 0, 0)).1,
        graphMeta := db.graphMeta ++
          [⟨sid, (rdocs.foldl (processChunkRepo sid)
              (mergeSourceNode db.graph sid "github_repo".data, [], 0, 0)).2.2.1,
            (rdocs.foldl (processChunkRepo sid)
              (mergeSourceNode db.graph sid "github_repo".data, [], 0, 0)).2.2.2⟩],
        sources := setSourceStatus db.sources sid "indexed".data } := by
    unfold runGraphJobRepo
    rw [buildGithubRepoGraph_eq sid rdocs db.graph hsid hrdocs]
  have hfP := foldl_processChunkPDF_counts sid docs
    (mergeSourceNode db.graph sid "pdf".data, 0, 0)
  have hfR := foldl_processChunkRepo_counts sid rdocs
    (mergeSourceNode db.graph sid "github_repo".data, [], 0, 0)
  refine ⟨buildPDFGraph_counts sid docs g0 hsid hdocs,
    buildGithubRepoGraph_counts sid rdocs g0 hsid hrdocs, ?_, ?_, ?_, ?_⟩
  · rw [hjobP]
    simp only []
    rw [hfP.1, hfP.2]
    norm_num
  · rw [hjobP]
    exact setSourceStatus_spec db.sources sid "indexed".data
  · rw [hjobR]
    simp only []
    rw [hfR.1, hfR.2]
    norm_num
  · rw [hjobR]
    exact setSourceStatus_spec db.sources sid "indexed".data

/-- A successful PDF chunk whose extraction found one entity. -/
def exChunk (nm : Str) : PDFChunk := .ok [⟨[⟨nm, "Concept".data⟩], []⟩]

/-- Ten PDF chunks of which the fifth fails extraction. -/
def exChunks : List PDFChunk :=
  [exChunk "n0".data, exChunk "n1".data, exChunk "n2".data, exChunk "n3".data,
   .error (), exChunk "n5".data, exChunk "n6".data, exChunk "n7".data,
   exChunk "n8".data, exChunk "n9".data]

/-- A successful repo chunk whose extraction found one entity. -/
def exRepoDoc (nm : Str) : RepoDoc :=
  ⟨"a.js".data, "javascript".data, "code".data, .ok [⟨[⟨nm, "Class".data⟩], []⟩]⟩

/-- Ten repo chunks of which the fifth fails extraction. -/
def exRepoDocs : List RepoDoc :=
  [exRepoDoc "m0".data, exRepoDoc "m1".data, exRepoDoc "m2".data,
   exRepoDoc "m3".data,
   ⟨"a.js".data, "javascript".data, "code".data, .error ()⟩,
   exRepoDoc "m5".data, exRepoDoc "m6".data, exRepoDoc "m7".data,
   exRepoDoc "m8".data, exRepoDoc "m9".data]

/-- An application state with one source in status `indexing`. -/
def exAppDB : AppDB :=
  ⟨[⟨"s".data, "u".data, "indexing".data⟩], [], [], [], GraphStore.empty⟩

/-- Witness for C5: with 10 chunks of which chunk 5 fails extraction, the
PDF build still resolves with the counters of the other 9 chunks. -/
theorem buildGraph_per_chunk_isolation_witness :
    buildCounters (buildPDFGraph "s".data exChunks GraphStore.empty) = some (9, 0) :=
  ((buildGraph_per_chunk_isolation "s".data exChunks exRepoDocs GraphStore.empty
    exAppDB (by decide) (by decide) (by decide)).1).trans (by decide)

/-! ### Occurrence counting versus distinct graph elements (claim C10) -/

theorem mergeEntity_entities_length (g : GraphStore) (n s t : Str) :
    (mergeEntity g n s t).entities.length ≤ g.entities.length + 1 := by
  unfold mergeEntity
  by_cases h : (g.entities.any fun e => e.name == n && e.sourceId == s) = true <;>
    simp [h]

theorem mergeEdge_entities (g : GraphStore) (f t s ty : Str) :
    (mergeEdge g f t s ty).entities = g.entities := by
  unfold mergeEdge
  by_cases h1 : ((g.entities.any fun e => e.name == f && e.sourceId == s) &&
      (g.entities.any fun e => e.name == t && e.sourceId == s)) = true
  · rw [if_pos h1]
    by_cases h2 : (g.edges.any fun e => e.fromName == f && e.toName == t &&
        e.sourceId == s && e.relType == ty) = true
    · rw [if_pos h2]
    · rw [if_neg h2]
  · rw [if_neg h1]

theorem mergeMentions_entities (g : GraphStore) (p n s : Str) :
    (mergeMentions g p n s).entities = g.entities := by
  unfold mergeMentions
  by_cases h1 : ((g.files.any fun f => f.path == p && f.sourceId == s) &&
      (g.entities.any fun e => e.name == n && e.sourceId == s)) = true
  · rw [if_pos h1]
    by_cases h2 : (g.mentionsEdges.any fun m => m.path == p &&
        m.entityName == n && m.sourceId == s) = true
    · rw [if_pos h2]
    · rw [if_neg h2]
  · rw [if_neg h1]

theorem mergeSourceNode_entities (g : GraphStore) (s ty : Str) :
    (mergeSourceNode g s ty).entities = g.entities := by
  unfold mergeSourceNode
  by_cases h : (g.sourceNodes.any fun p => p.1 == s) = true
  · rw [if_pos h]
  · rw [if_neg h]

theorem mergeFile_entities (g : GraphStore) (p s la ft : Str) :
    (mergeFile g p s la ft).entities = g.entities := by
  unfold mergeFile
  by_cases h : (g.files.any fun f => f.path == p && f.sourceId == s) = true
  · rw [if_pos h]
  · rw [if_neg h]

theorem mergeHasFile_entities (g : GraphStore) (s p : Str) :
    (mergeHasFile g s p).entities = g.entities := by
  unfold mergeHasFile
  by_cases h1 : ((g.sourceNodes.any fun q => q.1 == s) &&
      (g.files.any fun f => f.path == p && f.sourceId == s)) = true
  · rw [if_pos h1]
    by_cases h2 : (g.hasFileEdges.any fun e => e.sourceId == s && e.path == p) = true
    · rw [if_pos h2]
    · rw [if_neg h2]
  · rw [if_neg h1]

theorem foldl_mergeEntity_length (sid : Str) :
    ∀ (ns : List ExtNode) (g : GraphStore),
      ((ns.foldl (fun g n => mergeEntity g n.id sid n.type) g).entities.length ≤
        g.entities.length + ns.length) := by
  intro ns
  induction ns with
  | nil => intro g; simp
  | cons n rest ih =>
    intro g
    rw [List.foldl_cons]
    have h1 := mergeEntity_entities_length g n.id sid n.type
    have h2 := ih (mergeEntity g n.id sid n.type)
    simp only [List.length_cons]
    omega

theorem foldl_mergeEntityMentions_length (sid fp : Str) :
    ∀ (ns : List ExtNode) (g : GraphStore),
      ((ns.foldl (fun g n =>
          mergeMentions (mergeEntity g n.id sid n.type) fp n.id sid) g).entities.length ≤
        g.entities.length + ns.length) := by
  intro ns
  induction ns with
  | nil => intro g; simp
  | cons n rest ih =>
    intro g
    rw [List.foldl_cons]
    have h1 := mergeEntity_entities_length g n.id sid n.type
    have h2 := ih (mergeMentions (mergeEntity g n.id sid n.type) fp n.id sid)
    rw [mergeMentions_entities] at h2
    simp only [List.length_cons]
    omega

theorem foldl_mergeEdge_entities (sid : Str) :
    ∀ (rs : List ExtRel) (g : GraphStore),
      (rs.foldl (fun g r =>
        mergeEdge g r.sourceName r.targetName sid (relTypeKey r.type)) g).entities =
      g.entities := by
  intro rs
  induction rs with
  | nil => intro g; rfl
  | cons r rest ih =>
    intro g
    rw [List.foldl_cons, ih, mergeEdge_entities]

theorem processGraphDocPDF_entities_length (sid : Str) (acc : GraphStore × ℕ × ℕ)
    (gd : GraphDocX) :
    (processGraphDocPDF sid acc gd).1.entities.length ≤
      acc.1.entities.length + (docCounts gd).1 := by
  unfold processGraphDocPDF docCounts
  by_cases h : (normalizedNodes gd).isEmpty = true
  · simp [h]
  · simp only [h, Bool.false_eq_true, if_false]
    rw [foldl_mergeEdge_entities]
    exact foldl_mergeEntity_length sid (normalizedNodes gd) acc.1

theorem processGraphDocRepo_entities_length (sid fp : Str)
    (acc : GraphStore × ℕ × ℕ) (gd : GraphDocX) :
    (processGraphDocRepo sid fp acc gd).1.entities.length ≤
      acc.1.entities.length + (docCounts gd).1 := by
  unfold processGraphDocRepo docCounts
  by_cases h : (normalizedNodes gd).isEmpty = true
  · simp [h]
  · simp only [h, Bool.false_eq_true, if_false]
    rw [foldl_mergeEdge_entities]
    exact foldl_mergeEntityMentions_length sid fp (normalizedNodes gd) acc.1

theorem foldl_processGraphDocPDF_entities (sid : Str) :
    ∀ (gds : List GraphDocX) (acc : GraphStore × ℕ × ℕ),
      (gds.foldl (processGraphDocPDF sid) acc).1.entities.length ≤
        acc.1.entities.length + (gds.map (fun gd => (docCounts gd).1)).sum := by
  intro gds
  induction gds with
  | nil => intro acc; simp
  | cons gd rest ih =>
    intro acc
    rw [List.foldl_cons, List.map_cons, List.sum_cons]
    have h1 := processGraphDocPDF_entities_length sid acc gd
    have h2 := ih (processGraphDocPDF sid acc gd)
    omega

theorem foldl_processGraphDocRepo_entities (sid fp : Str) :
    ∀ (gds : List GraphDocX) (acc : GraphStore × ℕ × ℕ),
      (gds.foldl (processGraphDocRepo sid fp) acc).1.entities.length ≤
        acc.1.entities.length + (gds.map (fun gd => (docCounts gd).1)).sum := by
  intro gds
  induction gds with
  | nil => intro acc; simp
  | cons gd rest ih =>
    intro acc
    rw [List.foldl_cons, List.map_cons, List.sum_cons]
    have h1 := processGraphDocRepo_entities_length sid fp acc gd
    have h2 := ih (processGraphDocRepo sid fp acc gd)
    omega

theorem processChunkPDF_entities (sid : Str) (acc : GraphStore × ℕ × ℕ)
    (c : PDFChunk) :
    (processChunkPDF sid acc c).1.entities.length ≤
      acc.1.entities.length + (pdfChunkCounts c).1 := by
  cases c with
  | error e => simp [processChunkPDF, pdfChunkCounts]
  | ok gds =>
    simpa [processChunkPDF, pdfChunkCounts] using
      foldl_processGraphDocPDF_entities sid gds acc

theorem processChunkRepo_entities (sid : Str) (acc : GraphStore × List Str × ℕ × ℕ)
    (doc : RepoDoc) :
    (processChunkRepo sid acc doc).1.entities.length ≤
      acc.1.entities.length + (repoChunkCounts doc).1 := by
  unfold processChunkRepo repoChunkCounts
  rcases hx : doc.extract with e | gds
  · rcases hseen : (acc.2.1.contains (jsOrStr (some doc.path) "unknown".data)) with _ | _
    · simp only [hseen, Bool.false_eq_true, if_false]
      rw [mergeHasFile_entities, mergeFile_entities]
      simp
    · simp only [hseen, if_true]
      simp
  · rcases hseen : (acc.2.1.contains (jsOrStr (some doc.path) "unknown".data)) with _ | _
    · simp only [hseen, Bool.false_eq_true, if_false]
      have h := foldl_processGraphDocRepo_entities sid
        (jsOrStr (some doc.path) "unknown".data) gds
        (mergeHasFile (mergeFile acc.1 (jsOrStr (some doc.path) "unknown".data)
          sid (jsOrStr (some doc.language) "unknown".data)
          (jsOrStr (some doc.fileType) "unknown".data)) sid
          (jsOrStr (some doc.path) "unknown".data), acc.2.2)
      rw [mergeHasFile_entities, mergeFile_entities] at h
      simpa using h
    · simp only [hseen, if_true]
      have h := foldl_processGraphDocRepo_entities sid
        (jsOrStr (some doc.path) "unknown".data) gds (acc.1, acc.2.2)
      simpa using h

theorem foldl_processChunkPDF_entities (sid : Str) :
    ∀ (docs : List PDFChunk) (acc : GraphStore × ℕ × ℕ),
      (docs.foldl (processChunkPDF sid) acc).1.entities.length ≤
        acc.1.entities.length + (docs.map (fun c => (pdfChunkCounts c).1)).sum := by
  intro docs
  induction docs with
  | nil => intro acc; simp
  | cons c rest ih =>
    intro acc
    rw [List.foldl_cons, List.map_cons, List.sum_cons]
    have h1 := processChunkPDF_entities sid acc c
    have h2 := ih (processChunkPDF sid acc c)
    omega

theorem foldl_processChunkRepo_entities (sid : Str) :
    ∀ (docs : List RepoDoc) (acc : GraphStore × List Str × ℕ × ℕ),
      (docs.foldl (processChunkRepo sid) acc).1.entities.length ≤
        acc.1.entities.length + (docs.map (fun c => (repoChunkCounts c).1)).sum := by
  intro docs
  induction docs with
  | nil => intro acc; simp
  | cons c rest ih =>
    intro acc
    rw [List.foldl_cons, List.map_cons, List.sum_cons]
    have h1 := processChunkRepo_entities sid acc c
    have h2 := ih (processChunkRepo sid acc c)
    omega

/-- C10. Counter semantics: the `nodesAdded` / `relationshipsAdded` values
of both builders count one per persisted extracted-node or relationship
occurrence across all successfully processed chunks (the sums of the
per-chunk contributions), not one per distinct graph element: the number of
distinct Entity nodes the build adds never exceeds `nodesAdded` (and is
strictly below it whenever the same key recurs), and the detached job
persists exactly these occurrence counters as `GraphMetadata`. -/
theorem buildGraph_counters_per_occurrence (sid : Str) (docs : List PDFChunk)
    (rdocs : List RepoDoc) (g0 : GraphStore) (db : AppDB)
    (hsid : sid.isEmpty = false) (hdocs : docs.isEmpty = false)
    (hrdocs : rdocs.isEmpty = false) :
    buildCounters (buildPDFGraph sid docs g0) =
      some ((docs.map (fun c => (pdfChunkCounts c).1)).sum,
            (docs.map (fun c => (pdfChunkCounts c).2)).sum) ∧
    buildCountersRepo (buildGithubRepoGraph sid rdocs g0) =
      some ((rdocs.map (fun c => (repoChunkCounts c).1)).sum,
            (rdocs.map (fun c => (repoChunkCounts c).2)).sum) ∧
    (∀ st n r, buildPDFGraph sid docs g0 = .ok (st, n, r) →
      st.entities.length ≤ g0.entities.length + n) ∧
    (∀ st fs n r, buildGithubRepoGraph sid rdocs g0 = .ok (st, fs, n, r) →
      st.entities.length ≤ g0.entities.length + n) ∧
    (runGraphJobPDF db sid docs).graphMeta = db.graphMeta ++
      [⟨sid, (docs.map (fun c => (pdfChunkCounts c).1)).sum,
        (docs.map (fun c => (pdfChunkCounts c).2)).sum⟩] := by
  refine ⟨buildPDFGraph_counts sid docs g0 hsid hdocs,
    buildGithubRepoGraph_counts sid rdocs g0 hsid hrdocs, ?_, ?_, ?_⟩
  · intro st n r hok
    rw [buildPDFGraph_eq sid docs g0 hsid hdocs] at hok
    injection hok with h2
    have hcnt := foldl_processChunkPDF_counts sid docs
      (mergeSourceNode g0 sid "pdf".data, 0, 0)
    have hent := foldl_processChunkPDF_entities sid docs
      (mergeSourceNode g0 sid "pdf".data, 0, 0)
    rw [mergeSourceNode_entities] at hent
    have hst : (docs.foldl (processChunkPDF sid)
        (mergeSourceNode g0 sid "pdf".data, 0, 0)).1 = st :=
      congrArg (fun x => x.1) h2
    have hn : (docs.foldl (processChunkPDF sid)
        (mergeSourceNode g0 sid "pdf".data, 0, 0)).2.1 = n :=
      congrArg (fun x => x.2.1) h2
    rw [← hst, ← hn]
    omega
  · intro st fs n r hok
    rw [buildGithubRepoGraph_eq sid rdocs g0 hsid hrdocs] at hok
    injection hok with h2
    have hent := foldl_processChunkRepo_entities sid rdocs
      (mergeSourceNode g0 sid "github_repo".data, [], 0, 0)
    have hcnt := foldl_processChunkRepo_counts sid rdocs
      (mergeSourceNode g0 sid "github_repo".data, [], 0, 0)
    rw [mergeSourceNode_entities] at hent
    have hst : (rdocs.foldl (processChunkRepo sid)
        (mergeSourceNode g0 sid "github_repo".data, [], 0, 0)).1 = st :=
      congrArg (fun x => x.1) h2
    have hn : (rdocs.foldl (processChunkRepo sid)
        (mergeSourceNode g0 sid "github_repo".data, [], 0, 0)).2.2.1 = n :=
      congrArg (fun x => x.2.2.1) h2
    rw [← hst, ← hn]
    omega
  · have hjobP : runGraphJobPDF db sid docs =
        { db with
          graph := (docs.foldl (processChunkPDF sid)
            (mergeSourceNode db.graph sid "pdf".data, 0, 0)).1,
          graphMeta := db.graphMeta ++
            [⟨sid, (docs.foldl (processChunkPDF sid)
                (mergeSourceNode db.graph sid "pdf".data, 0, 0)).2.1,
              (docs.foldl (processChunkPDF sid)
                (mergeSourceNode db.graph sid "pdf".data, 0, 0)).2.2⟩],
          sources := setSourceStatus db.sources sid "indexed".data } := by
      unfold runGraphJobPDF
      rw [buildPDFGraph_eq sid docs db.graph hsid hdocs]
    have hfP := foldl_processChunkPDF_counts sid docs
      (mergeSourceNode db.graph sid "pdf".data, 0, 0)
    rw [hjobP]
    simp only []
    rw [hfP.1, hfP.2]
    norm_num

/-- Two chunks whose extractions both return the same entity key. -/
def exDupChunks : List PDFChunk := [exChunk "dup".data, exChunk "dup".data]

/-- Witness for C10: two chunks extracting the same `(name, sourceId)` key
yield `nodesAdded = 2` while the store holds a single Entity node — the
recorded count strictly exceeds the distinct-node count. -/
theorem buildGraph_counters_per_occurrence_witness :
    buildCounters (buildPDFGraph "s".data exDupChunks GraphStore.empty) = some (2, 0) ∧
    (buildPDFGraph "s".data exDupChunks GraphStore.empty).toOption.map
      (fun x => x.1.entities.length) = some 1 :=
  ⟨((buildGraph_counters_per_occurrence "s".data exDupChunks exRepoDocs
      GraphStore.empty exAppDB (by decide) (by decide) (by decide)).1).trans
    (by decide), by decide⟩

/-! ### Merge-by-key idempotence (claim C7) -/

/-- The number of Entity nodes in the store with key `(name, sourceId)`. -/
def entityKeyCount (g : GraphStore) (name sid : Str) : ℕ :=
  (g.entities.filter (fun e => e.name == name && e.sourceId == sid)).length

/-- The number of edges with key `(fromName, toName, sourceId, relType)`. -/
def edgeKeyCount (g : GraphStore) (f t sid ty : Str) : ℕ :=
  (g.edges.filter (fun e => e.fromName == f && e.toName == t &&
    e.sourceId == sid && e.relType == ty)).length

theorem filter_length_map_upd (l : List StoreEntity) (p : StoreEntity → Bool)
    (u : StoreEntity → StoreEntity) (hpu : ∀ e, p (u e) = p e) :
    (List.filter p (l.map u)).length = (List.filter p l).length := by
  induction l with
  | nil => rfl
  | cons e rest ih =>
    rw [List.map_cons, List.filter_cons, List.filter_cons, hpu e]
    by_cases hp : p e = true
    · simp [hp, ih]
    · simp [hp, ih]

theorem mergeEntity_keyCount (g : GraphStore) (name sid ty : Str)
    (h : entityKeyCount g name sid ≤ 1) :
    entityKeyCount (mergeEntity g name sid ty) name sid = 1 := by
  unfold mergeEntity entityKeyCount
  have hkey : ∀ e : StoreEntity,
      (((if e.name == name && e.sourceId == sid then { e with type := ty } else e).name
          == name) &&
        ((if e.name == name && e.sourceId == sid then { e with type := ty } else e).sourceId
          == sid)) =
      (e.name == name && e.sourceId == sid) := by
    intro e
    by_cases hk : (e.name == name && e.sourceId == sid) = true
    · rw [if_pos hk]
    · rw [if_neg hk]
  by_cases hany : (g.entities.any fun e => e.name == name && e.sourceId == sid) = true
  · rw [if_pos hany]
    show (List.filter (fun e => e.name == name && e.sourceId == sid)
        (g.entities.map (fun e =>
          if e.name == name && e.sourceId == sid then { e with type := ty } else e))).length = 1
    rw [filter_length_map_upd g.entities _ _ hkey]
    obtain ⟨e, he, hke⟩ := List.any_eq_true.mp hany
    have hmem : e ∈ g.entities.filter (fun e => e.name == name && e.sourceId == sid) :=
      List.mem_filter.mpr ⟨he, hke⟩
    have hpos : 0 < (g.entities.filter
        (fun e => e.name == name && e.sourceId == sid)).length :=
      List.length_pos.mpr (List.ne_nil_of_mem hmem)
    unfold entityKeyCount at h
    omega
  · rw [if_neg hany]
    show (List.filter (fun e => e.name == name && e.sourceId == sid)
        (g.entities ++ [⟨name, sid, ty⟩])).length = 1
    rw [List.filter_append]
    have hnil : g.entities.filter (fun e => e.name == name && e.sourceId == sid) = [] := by
      rw [List.filter_eq_nil_iff]
      intro e he
      have := List.any_eq_false.mp (Bool.eq_false_iff.mpr hany) e he
      simpa using this
    rw [hnil]
    simp

theorem mergeEntity_key_mem (g : GraphStore) (name sid ty : Str) :
    ∀ e ∈ (mergeEntity g name sid ty).entities,
      (e.name == name && e.sourceId == sid) = true → e.type = ty := by
  intro e he hkey
  unfold mergeEntity at he
  by_cases hany : (g.entities.any fun e => e.name == name && e.sourceId == sid) = true
  · rw [if_pos hany] at he
    simp only [List.mem_map] at he
    obtain ⟨e0, _, rfl⟩ := he
    by_cases hk0 : (e0.name == name && e0.sourceId == sid) = true
    · rw [if_pos hk0]
    · rw [if_neg hk0] at hkey ⊢
      exact absurd hkey hk0
  · rw [if_neg hany] at he
    rcases List.mem_append.mp he with h1 | h1
    · have := List.any_eq_false.mp (Bool.eq_false_iff.mpr hany) e h1
      exact absurd hkey (by simpa using this)
    · rcases List.mem_singleton.mp h1 with rfl
      rfl

theorem mergeEdge_keyCount (g : GraphStore) (f t sid ty : Str)
    (hle : edgeKeyCount g f t sid ty ≤ 1)
    (hf : (g.entities.any fun e => e.name == f && e.sourceId == sid) = true)
    (ht : (g.entities.any fun e => e.name == t && e.sourceId == sid) = true) :
    edgeKeyCount (mergeEdge g f t sid ty) f t sid ty = 1 := by
  unfold mergeEdge edgeKeyCount
  rw [if_pos (by rw [Bool.and_eq_true]; exact ⟨hf, ht⟩)]
  by_cases hedge : (g.edges.any fun e => e.fromName == f && e.toName == t &&
      e.sourceId == sid && e.relType == ty) = true
  · rw [if_pos hedge]
    obtain ⟨e, he, hke⟩ := List.any_eq_true.mp hedge
    have hmem : e ∈ g.edges.filter (fun e => e.fromName == f && e.toName == t &&
        e.sourceId == sid && e.relType == ty) := List.mem_filter.mpr ⟨he, hke⟩
    have hpos : 0 < (g.edges.filter (fun e => e.fromName == f && e.toName == t &&
        e.sourceId == sid && e.relType == ty)).length :=
      List.length_pos.mpr (List.ne_nil_of_mem hmem)
    unfold edgeKeyCount at hle
    omega
  · rw [if_neg hedge]
    simp only []
    rw [List.filter_append]
    have hnil : g.edges.filter (fun e => e.fromName == f && e.toName == t &&
        e.sourceId == sid && e.relType == ty) = [] := by
      rw [List.filter_eq_nil_iff]
      intro e he
      have := List.any_eq_false.mp (Bool.eq_false_iff.mpr hedge) e he
      simpa using this
    rw [hnil]
    simp

/-- C7. Merge-by-key idempotence: starting from a store whose keys are not
already duplicated, two `MERGE` calls with the same `(name, sourceId)`
entity key leave exactly one Entity node with that key, whose `type` is the
second call's value; and two `MERGE` calls for the same `(sourceId,
fromName, toName, predicateType)` relationship (with both endpoints
present) leave exactly one such edge — repeated runs converge rather than
duplicate. -/
theorem merge_by_key_idempotent (g : GraphStore) (name sid t1 t2 : Str)
    (f t ty : Str)
    (hE : entityKeyCount g name sid ≤ 1)
    (hEdge : edgeKeyCount g f t sid ty ≤ 1)
    (hf : (g.entities.any fun e => e.name == f && e.sourceId == sid) = true)
    (ht : (g.entities.any fun e => e.name == t && e.sourceId == sid) = true) :
    entityKeyCount (mergeEntity (mergeEntity g name sid t1) name sid t2) name sid = 1 ∧
    (∀ e ∈ (mergeEntity (mergeEntity g name sid t1) name sid t2).entities,
      (e.name == name && e.sourceId == sid) = true → e.type = t2) ∧
    edgeKeyCount (mergeEdge (mergeEdge g f t sid ty) f t sid ty) f t sid ty = 1 := by
  have h1 : entityKeyCount (mergeEntity g name sid t1) name sid = 1 :=
    mergeEntity_keyCount g name sid t1 hE
  refine ⟨mergeEntity_keyCount _ name sid t2 (by omega), ?_, ?_⟩
  · exact mergeEntity_key_mem _ name sid t2
  · have hE1 : edgeKeyCount (mergeEdge g f t sid ty) f t sid ty = 1 :=
      mergeEdge_keyCount g f t sid ty hEdge hf ht
    have hf2 : ((mergeEdge g f t sid ty).entities.any
        fun e => e.name == f && e.sourceId == sid) = true := by
      rw [mergeEdge_entities]; exact hf
    have ht2 : ((mergeEdge g f t sid ty).entities.any
        fun e => e.name == t && e.sourceId == sid) = true := by
      rw [mergeEdge_entities]; exact ht
    exact mergeEdge_keyCount _ f t sid ty (by omega) hf2 ht2

/-- A store holding only the two endpoint entities of the edge example. -/
def exStore7 : GraphStore :=
  ⟨[("s".data, "pdf".data)],
   [⟨"from".data, "s".data, "Concept".data⟩, ⟨"to".data, "s".data, "Concept".data⟩],
   [], [], [], []⟩

/-- Witness for C7 at a concrete store: after merging the key
`("alpha", "s")` twice, exactly one node with that key exists. -/
theorem merge_by_key_idempotent_witness :
    entityKeyCount (mergeEntity (mergeEntity exStore7 "alpha".data "s".data "T1".data)
      "alpha".data "s".data "T2".data) "alpha".data "s".data = 1 :=
  (merge_by_key_idempotent exStore7 "alpha".data "s".data "T1".data "T2".data
    "from".data "to".data "USES".data (by decide) (by decide) (by decide) (by decide)).1

/-! ### Vector-indexing failure aborts ingestion (claim C6) -/

/-- The state a failed ingestion request leaves behind: the new Source row
created as `uploaded` and then marked `failed`; nothing else changed. -/
def failedIngestDB (db : AppDB) (newId userId : Str) : AppDB :=
  let rows := setSourceStatus (db.sources ++ [⟨newId, userId, "uploaded".data⟩]) newId "failed".data
  { db with sources := rows }

theorem addGithubSource_fail_eq (db : AppDB) (userId newId repoUrl : Str)
    (ld sp : List RepoDoc) (sOk : Bool)
    (hurl1 : repoUrl.isEmpty = false)
    (hurl2 : strContains repoUrl "github.com".data = true)
    (hfail : (∃ e, loadAndPrepareGithubRepo ld sp = .error e) ∨ sOk = false) :
    ∃ msg, addGithubSource db userId newId repoUrl ld sp sOk =
      ⟨failedIngestDB db newId userId, .error msg, none⟩ := by
  unfold addGithubSource
  rw [if_neg (by simp [hurl1]), if_neg (by simp [hurl2])]
  rcases hload : loadAndPrepareGithubRepo ld sp with e | chunks
  · exact ⟨e, rfl⟩
  · rcases hfail with ⟨e, he⟩ | hs
    · rw [hload] at he
      exact absurd he (by simp)
    · subst hs
      exact ⟨_, rfl⟩

theorem addPDFSource_fail_eq (db : AppDB) (userId newId : Str)
    (ld sp : List PDFChunk) (sOk cOk : Bool)
    (hfail : (∃ e, loadAndPreparePDF ld sp = .error e) ∨ sOk = false) :
    ∃ msg, addPDFSource db userId newId true ld sp sOk cOk =
      ⟨failedIngestDB db newId userId, .error msg, none⟩ := by
  unfold addPDFSource
  rw [if_neg (by simp)]
  rcases hload : loadAndPreparePDF ld sp with e | chunks
  · exact ⟨e, rfl⟩
  · rcases hfail with ⟨e, he⟩ | hs
    · rw [hload] at he
      exact absurd he (by simp)
    · subst hs
      exact ⟨_, rfl⟩

/-- C6. Vector-indexing failure aborts ingestion: when the synchronous
vector-indexing step of `addGithubSource` or `addPDFSource` fails (its
loader/splitter threw, or the vector-store upsert failed), the request ends
with an error response, the created Source row is set to status `failed`,
the detached graph-build job is never started, and no `GraphMetadata` (and
no `VectorIndexMetadata`) record is ever created for that source. -/
theorem vector_indexing_failure_aborts (db : AppDB) (userId newId repoUrl : Str)
    (ldR spR : List RepoDoc) (sOkR : Bool) (ldP spP : List PDFChunk)
    (sOkP cOk : Bool)
    (hurl1 : repoUrl.isEmpty = false)
    (hurl2 : strContains repoUrl "github.com".data = true)
    (hfailR : (∃ e, loadAndPrepareGithubRepo ldR spR = .error e) ∨ sOkR = false)
    (hfailP : (∃ e, loadAndPreparePDF ldP spP = .error e) ∨ sOkP = false) :
    ((addGithubSource db userId newId repoUrl ldR spR sOkR).pendingGraphJob = none ∧
     (addGithubSource db userId newId repoUrl ldR spR sOkR).db.graphMeta = db.graphMeta ∧
     (addGithubSource db userId newId repoUrl ldR spR sOkR).db.vectorMeta = db.vectorMeta ∧
     (addGithubSource db userId newId repoUrl ldR spR sOkR).response.isOk = false ∧
     (addGithubSource db userId newId repoUrl ldR spR sOkR).db.sources =
       setSourceStatus (db.sources ++ [⟨newId, userId, "uploaded".data⟩])
         newId "failed".data) ∧
    ((addPDFSource db userId newId true ldP spP sOkP cOk).pendingGraphJob = none ∧
     (addPDFSource db userId newId true ldP spP sOkP cOk).db.graphMeta = db.graphMeta ∧
     (addPDFSource db userId newId true ldP spP sOkP cOk).db.vectorMeta = db.vectorMeta ∧
     (addPDFSource db userId newId true ldP spP sOkP cOk).response.isOk = false ∧
     (addPDFSource db userId newId true ldP spP sOkP cOk).db.sources =
       setSourceStatus (db.sources ++ [⟨newId, userId, "uploaded".data⟩])
         newId "failed".data) := by
  obtain ⟨msgR, heqR⟩ :=
    addGithubSource_fail_eq db userId newId repoUrl ldR spR sOkR hurl1 hurl2 hfailR
  obtain ⟨msgP, heqP⟩ := addPDFSource_fail_eq db userId newId ldP spP sOkP cOk hfailP
  rw [heqR, heqP]
  exact ⟨⟨rfl, rfl, rfl, rfl, rfl⟩, ⟨rfl, rfl, rfl, rfl, rfl⟩⟩

/-- Witness for C6: a concrete GitHub ingestion whose vector upsert fails
starts no graph job. -/
theorem vector_indexing_failure_aborts_witness :
    (addGithubSource exAppDB "u".data "s2".data "https://github.com/o/r".data
      [exRepoDoc "m0".data] [exRepoDoc "m0".data] false).pendingGraphJob = none :=
  (vector_indexing_failure_aborts exAppDB "u".data "s2".data
    "https://github.com/o/r".data [exRepoDoc "m0".data] [exRepoDoc "m0".data] false
    [exChunk "n0".data] [exChunk "n0".data] false true
    (by decide) (by decide) (Or.inr rfl) (Or.inr rfl)).1.1

/-! ### Fail-fast on empty input (claim C8) -/

theorem loadAndPrepareGithubRepo_empty (ld sp : List RepoDoc)
    (h : ld.isEmpty = true ∨ sp.isEmpty = true) :
    ∃ e, loadAndPrepareGithubRepo ld sp = .error e := by
  unfold loadAndPrepareGithubRepo
  by_cases h1 : ld.isEmpty = true
  · rw [if_pos h1]
    exact ⟨_, rfl⟩
  · rcases h with h | h
    · exact absurd h h1
    · rw [if_neg h1, if_pos h]
      exact ⟨_, rfl⟩

theorem loadAndPreparePDF_empty (ld sp : List PDFChunk)
    (h : ld.isEmpty = true ∨ sp.isEmpty = true) :
    ∃ e, loadAndPreparePDF ld sp = .error e := by
  unfold loadAndPreparePDF
  by_cases h1 : ld.isEmpty = true
  · rw [if_pos h1]
    exact ⟨_, rfl⟩
  · rcases h with h | h
    · exact absurd h h1
    · rw [if_neg h1, if_pos h]
      exact ⟨_, rfl⟩

/-- The empty application state used for the C8 counterexample. -/
def exC8DB : AppDB := ⟨[], [], [], [], GraphStore.empty⟩

/-- Counterexample to C8 as stated: ingesting an empty GitHub repository
aborts, yet a Source record for the request DOES exist afterward — the row
created at the start of the request is kept with status `failed`, not
removed. -/
theorem addGithubSource_empty_keeps_source_row :
    (addGithubSource exC8DB "u".data "s1".data "https://github.com/o/r".data
      [] [] true).db.sources = [⟨"s1".data, "u".data, "failed".data⟩] ∧
    ¬((addGithubSource exC8DB "u".data "s1".data "https://github.com/o/r".data
      [] [] true).db.sources = []) := by
  constructor
  · decide
  · decide

/-- C8 amended: when the loaded content is empty or splitting yields zero
chunks, the ingestion request aborts before any external-store write — the
vector store, both metadata collections and the graph are untouched and no
graph job is started — but the Source record created at the start of the
request remains, with status `failed`. -/
theorem empty_input_aborts_before_external_writes (db : AppDB)
    (userId newId repoUrl : Str) (ldR spR : List RepoDoc)
    (ldP spP : List PDFChunk) (sOkR sOkP cOk : Bool)
    (hurl1 : repoUrl.isEmpty = false)
    (hurl2 : strContains repoUrl "github.com".data = true)
    (hemptyR : ldR.isEmpty = true ∨ spR.isEmpty = true)
    (hemptyP : ldP.isEmpty = true ∨ spP.isEmpty = true) :
    ((addGithubSource db userId newId repoUrl ldR spR sOkR).db.qdrantCollections =
       db.qdrantCollections ∧
     (addGithubSource db userId newId repoUrl ldR spR sOkR).db.vectorMeta = db.vectorMeta ∧
     (addGithubSource db userId newId repoUrl ldR spR sOkR).db.graphMeta = db.graphMeta ∧
     (addGithubSource db userId newId repoUrl ldR spR sOkR).db.graph = db.graph ∧
     (addGithubSource db userId newId repoUrl ldR spR sOkR).pendingGraphJob = none ∧
     (addGithubSource db userId newId repoUrl ldR spR sOkR).response.isOk = false ∧
     (addGithubSource db userId newId repoUrl ldR spR sOkR).db.sources =
       setSourceStatus (db.sources ++ [⟨newId, userId, "uploaded".data⟩])
         newId "failed".data) ∧
    ((addPDFSource db userId newId true ldP spP sOkP cOk).db.qdrantCollections =
       db.qdrantCollections ∧
     (addPDFSource db userId newId true ldP spP sOkP cOk).db.vectorMeta = db.vectorMeta ∧
     (addPDFSource db userId newId true ldP spP sOkP cOk).db.graphMeta = db.graphMeta ∧
     (addPDFSource db userId newId true ldP spP sOkP cOk).db.graph = db.graph ∧
     (addPDFSource db userId newId true ldP spP sOkP cOk).pendingGraphJob = none ∧
     (addPDFSource db userId newId true ldP spP sOkP cOk).response.isOk = false ∧
     (addPDFSource db userId newId true ldP spP sOkP cOk).db.sources =
       setSourceStatus (db.sources ++ [⟨newId, userId, "uploaded".data⟩])
         newId "failed".data) := by
  obtain ⟨msgR, heqR⟩ := addGithubSource_fail_eq db userId newId repoUrl ldR spR sOkR
    hurl1 hurl2 (Or.inl (loadAndPrepareGithubRepo_empty ldR spR hemptyR))
  obtain ⟨msgP, heqP⟩ := addPDFSource_fail_eq db userId newId ldP spP sOkP cOk
    (Or.inl (loadAndPreparePDF_empty ldP spP hemptyP))
  rw [heqR, heqP]
  exact ⟨⟨rfl, rfl, rfl, rfl, rfl, rfl, rfl⟩, ⟨rfl, rfl, rfl, rfl, rfl, rfl, rfl⟩⟩

/-- Witness for the amended C8: the concrete empty-repository request
leaves the vector store untouched. -/
theorem empty_input_aborts_before_external_writes_witness :
    (addGithubSource exC8DB "u".data "s1".data "https://github.com/o/r".data
      [] [] true).db.qdrantCollections = exC8DB.qdrantCollections :=
  (empty_input_aborts_before_external_writes exC8DB "u".data "s1".data
    "https://github.com/o/r".data [] [] [] [] true true true
    (by decide) (by decide) (Or.inl (by decide)) (Or.inl (by decide))).1.1

/-! ### deleteSource cleanup semantics (claim C9) -/

theorem filter_sources_spec (rows : List SourceRow) (id userId : Str) :
    ∀ s ∈ rows.filter (fun s => !(s.id == id && s.ownerId == userId)),
      ¬(s.id = id ∧ s.ownerId = userId) := by
  intro s hs hcontra
  obtain ⟨h1, h2⟩ := hcontra
  have := (List.mem_filter.mp hs).2
  simp [h1, h2] at this

theorem filter_vm_spec (rows : List VectorMetaRow) (id : Str) :
    ∀ v ∈ rows.filter (fun v => !(v.sourceId == id)), v.sourceId ≠ id := by
  intro v hv h1
  have := (List.mem_filter.mp hv).2
  simp [h1] at this

theorem filter_gm_spec (rows : List GraphMetaRow) (id : Str) :
    ∀ m ∈ rows.filter (fun m => !(m.sourceId == id)), m.sourceId ≠ id := by
  intro m hm h1
  have := (List.mem_filter.mp hm).2
  simp [h1] at this

theorem deleteGraph_entities_spec (g : GraphStore) (sid : Str) :
    ∀ e ∈ (deleteGraphBySourceId g sid).entities, e.sourceId ≠ sid := by
  intro e he h1
  have := (List.mem_filter.mp he).2
  simp [h1] at this

theorem deleteGraph_edges_spec (g : GraphStore) (sid : Str) :
    ∀ e ∈ (deleteGraphBySourceId g sid).edges, e.sourceId ≠ sid := by
  intro e he h1
  have := (List.mem_filter.mp he).2
  simp [h1] at this

theorem deleteGraph_mentions_spec (g : GraphStore) (sid : Str) :
    ∀ m ∈ (deleteGraphBySourceId g sid).mentionsEdges, m.sourceId ≠ sid := by
  intro m hm h1
  have := (List.mem_filter.mp hm).2
  simp [h1] at this

/-- The application state for the C9 counterexample: an indexed source
`s` whose graph contains one File node scoped to `s`. -/
def exC9DB : AppDB :=
  ⟨[⟨"s".data, "u".data, "indexed".data⟩], [], [⟨"s".data, 1, 0⟩], [],
   ⟨[], [], [], [⟨"f.js".data, "s".data, "javascript".data, "code".data⟩], [], []⟩⟩

/-- Counterexample to C9 as stated: deleting source `s` succeeds, but a
`File` node carrying `sourceId = "s"` is still present in the graph store
afterward — the Cypher of `deleteGraphBySourceId` matches only `:Entity`
nodes, so File nodes of the source are not removed. -/
theorem deleteSource_keeps_file_nodes :
    (deleteSource exC9DB "s".data "u".data true true).isOk = true ∧
    ((deleteSource exC9DB "s".data "u".data true true).toOption.map
      (fun d => d.graph.files.any (fun f => f.sourceId == "s".data))) = some true := by
  constructor <;> decide

/-- C9 amended: `deleteSource` deletes the Source record and its metadata
rows synchronously; the external cleanups are best-effort — dispatched only
when the corresponding metadata row existed, with any failure only logged —
and the call succeeds regardless; the graph cleanup removes all Entity
nodes carrying the sourceId and every edge touching them (entity edges and
MENTIONS edges), while File nodes, the Source graph node and HAS_FILE edges
are left in place. -/
theorem deleteSource_cleanup (db : AppDB) (id userId : Str) (qOk nOk : Bool)
    (hfound : (db.sources.find? (fun s => s.id == id && s.ownerId == userId)).isSome = true) :
    (deleteSource db id userId qOk nOk).isOk = true ∧
    (∀ db', deleteSource db id userId qOk nOk = .ok db' →
      (∀ s ∈ db'.sources, ¬(s.id = id ∧ s.ownerId = userId)) ∧
      (∀ v ∈ db'.vectorMeta, v.sourceId ≠ id) ∧
      (∀ m ∈ db'.graphMeta, m.sourceId ≠ id) ∧
      db'.graph.files = db.graph.files ∧
      db'.graph.sourceNodes = db.graph.sourceNodes ∧
      db'.graph.hasFileEdges = db.graph.hasFileEdges ∧
      ((db.graphMeta.find? (fun m => m.sourceId == id)).isSome = true → nOk = true →
        (∀ e ∈ db'.graph.entities, e.sourceId ≠ id) ∧
        (∀ e ∈ db'.graph.edges, e.sourceId ≠ id) ∧
        (∀ m ∈ db'.graph.mentionsEdges, m.sourceId ≠ id))) := by
  rcases hfind : db.sources.find? (fun s => s.id == id && s.ownerId == userId) with _ | srow
  · rw [hfind] at hfound
    simp at hfound
  · unfold deleteSource
    rw [hfind]
    rcases hvm : db.vectorMeta.find? (fun v => v.sourceId == id) with _ | v <;>
      rcases hgm : db.graphMeta.find? (fun m => m.sourceId == id) with _ | m <;>
      rcases qOk with _ | _ <;> rcases nOk with _ | _ <;>
      simp only [hvm, hgm] <;>
      refine ⟨rfl, ?_⟩ <;>
      intro db' h <;>
      (injection h with h) <;> subst h <;>
      refine ⟨filter_sources_spec _ _ _, filter_vm_spec _ _, filter_gm_spec _ _,
        rfl, rfl, rfl, ?_⟩ <;>
      intro hsome hnok <;>
      first
      | exact ⟨deleteGraph_entities_spec _ _, deleteGraph_edges_spec _ _,
          deleteGraph_mentions_spec _ _⟩
      | simp at hnok
      | simp at hsome

/-- Witness for the amended C9: deleting the concrete source succeeds even
when both external cleanups fail. -/
theorem deleteSource_cleanup_witness :
    (deleteSource exC9DB "s".data "u".data false false).isOk = true :=
  (deleteSource_cleanup exC9DB "s".data "u".data false false (by decide)).1

end GraphLM
